import Mathlib

/-!
# ChessAuth-notes: the interaction state machine of `public/chess-handler.js`

A shallow embedding of the `ChessHandler` class.  The rules engine (the
`chess.js` library handed to the constructor) is not part of the repository,
so it is a parameter `Engine Pos`: a position type together with the
operations the handler calls on it.  Handler methods become functions from
handler state to handler state, written statement by statement after the
JavaScript.  Calls that leave the handler (engine `move` calls, console
errors, audio cues and `onUpdate` projections) are appended to an
observation field `trace`, which no handler code ever reads.

Further down the file embeds the drag handling of `public/chess-board.js`
with the listener bindings of `public/utils.js`, the submit handlers of
`public/register.js` and `public/account.js`, the note, account and
registration routes of `server.js`, and the index arithmetic of
`public/music-player.js`.
-/

namespace ChessAuth

/-! ## Data model -/

/-- Side of a piece, `'w'` or `'b'` in chess.js. -/
inductive Color
  | w
  | b
  deriving DecidableEq, Repr

/-- Piece type letter of chess.js: `'p' 'n' 'b' 'r' 'q' 'k'`. -/
inductive PieceSymbol
  | p
  | n
  | b
  | r
  | q
  | k
  deriving DecidableEq, Repr

/-- Value of `chess.get(square)` when the square is occupied. -/
structure Piece where
  type : PieceSymbol
  color : Color
  deriving DecidableEq, Repr

/-- Square identifier as built by `chess-board.js` (`files[f] + ranks[r]`):
a file character followed by a rank character, so `squareId[0]` is `file`
and `squareId[1]` is `rank`.  Such a string is never empty, hence truthy. -/
structure Square where
  file : Char
  rank : Char
  deriving DecidableEq, Repr

/-- Move record returned by `chess.move` and listed by `chess.moves` in
verbose mode (the fields the handler and its observers can read). -/
structure Move where
  color : Color
  from_ : Square
  to_ : Square
  piece : PieceSymbol
  captured : Option PieceSymbol
  promotion : Option PieceSymbol
  flags : List Char
  san : String
  deriving DecidableEq, Repr

/-- Argument object of the call `chess.move({ from, to, promotion })`. -/
structure MoveRequest where
  from_ : Square
  to_ : Square
  promotion : Option PieceSymbol
  deriving DecidableEq, Repr

/-- Cell of `chess.board()`: an occupied square with its identifier. -/
structure BoardCell where
  square : Square
  type : PieceSymbol
  color : Color
  deriving DecidableEq, Repr

/-- Result of `chess.board()`: eight rows of eight optional cells. -/
abbrev Board := Fin 8 → Fin 8 → Option BoardCell

/-- Rules engine consumed by the handler: the methods of a chess.js instance
that `chess-handler.js` calls, as functions of the engine position.  Queries
are pure.  `move` either throws (`Except.error` with the error message),
returns a falsy value (`none`) or returns the applied move together with the
position it leaves the engine in; a call that does not apply a move leaves the
position as it was. -/
structure Engine (Pos : Type) where
  newGame : Pos
  get : Pos → Square → Option Piece
  turn : Pos → Color
  moves : Pos → Square → List Move
  move : Pos → MoveRequest → Except String (Option (Move × Pos))
  history : Pos → List String
  board : Pos → Board
  inCheck : Pos → Bool
  isCheckmate : Pos → Bool
  isStalemate : Pos → Bool
  isThreefoldRepetition : Pos → Bool
  isInsufficientMaterial : Pos → Bool
  isDraw : Pos → Bool
  isGameOver : Pos → Bool

/-- Value of `getGameStateFlags()`. -/
structure GameStateFlags where
  checkmate : Bool
  stalemate : Bool
  threefoldRepetition : Bool
  insufficientMaterial : Bool
  draw : Bool
  deriving DecidableEq, Repr

/-- Value of `getKingPositions()`: the object keyed by colour. -/
structure KingPositions where
  w : Option Square
  b : Option Square
  deriving DecidableEq, Repr

/-- Object handed to `onUpdate` by `update()`. -/
structure ViewState where
  boardState : Board
  selectedSquare : Option Square
  validMoves : List Square
  notationString : String
  turn : Color
  isAwaitingPromotion : Bool
  moveCount : Nat
  gameStatus : String
  isGameOver : Bool
  gameStateFlags : GameStateFlags
  kingPositions : KingPositions
  isCheck : Bool
  lastMove : Option (Square × Square)

/-- Audio element played by `playMoveSound`. -/
inductive Cue
  | gameOverAudio
  | checkAudio
  | captureAudio
  | moveAudio
  deriving DecidableEq, Repr

/-- Observable action of the handler on its collaborators. -/
inductive Effect
  | moveCall (req : MoveRequest) (applied : Bool)
  | errorLogged (message : String)
  | played (cue : Cue)
  | updated (view : ViewState)

/-- Fields of a `ChessHandler` instance after `reset()` has run once, plus the
observation `trace`.  `promotionMove` and `lastMove` hold the pair `(from, to)`. -/
structure ChessHandler (Pos : Type) where
  chess : Pos
  selectedSquare : Option Square
  validMoves : List Square
  promotionMove : Option (Square × Square)
  moveHistory : List Move
  lastMove : Option (Square × Square)
  trace : List Effect

/-! ## Methods of `ChessHandler` -/

namespace ChessHandler

variable {Pos : Type}

/-- Condition `piece && piece.type === 'p'` on a `chess.get` result. -/
def isPawn (piece : Option Piece) : Bool :=
  match piece with
  | some pc => pc.type == PieceSymbol.p
  | none => false

/-- Condition `squareId[1] === '8' || squareId[1] === '1'`. -/
def onEdgeRank (squareId : Square) : Bool :=
  squareId.rank == '8' || squareId.rank == '1'

/-- Condition `piece && piece.color === this.chess.turn()`. -/
def isMovable (E : Engine Pos) (pos : Pos) (piece : Option Piece) : Bool :=
  match piece with
  | some pc => pc.color == E.turn pos
  | none => false

/-- Method `getGameStateFlags()`. -/
def getGameStateFlags (E : Engine Pos) (h : ChessHandler Pos) : GameStateFlags :=
  { checkmate := E.isCheckmate h.chess
    stalemate := E.isStalemate h.chess
    threefoldRepetition := E.isThreefoldRepetition h.chess
    insufficientMaterial := E.isInsufficientMaterial h.chess
    draw := E.isDraw h.chess }

/-- Method `isGameOver()`. -/
def isGameOver (E : Engine Pos) (h : ChessHandler Pos) : Bool :=
  E.isGameOver h.chess

/-- Body of the inner loop of `getKingPositions()`: a king found on a cell
overwrites the entry of its colour. -/
def recordKing (positions : KingPositions) (cell : Option BoardCell) : KingPositions :=
  match cell with
  | some sq =>
    if sq.type = PieceSymbol.k then
      match sq.color with
      | Color.w => { positions with w := some sq.square }
      | Color.b => { positions with b := some sq.square }
    else positions
  | none => positions

/-- Method `getKingPositions()`: rows `r = 0..7`, columns `c = 0..7` in order. -/
def getKingPositions (E : Engine Pos) (h : ChessHandler Pos) : KingPositions :=
  let board := E.board h.chess
  (List.finRange 8).foldl
    (fun acc r => (List.finRange 8).foldl (fun acc2 c => recordKing acc2 (board r c)) acc)
    { w := none, b := none }

/-- Method `getNotationString()`: `this.chess.history().join(' ')`. -/
def getNotationString (E : Engine Pos) (h : ChessHandler Pos) : String :=
  " ".intercalate (E.history h.chess)

/-- Method `getGameStatus()`. -/
def getGameStatus (E : Engine Pos) (h : ChessHandler Pos) : String :=
  if E.isCheckmate h.chess then "Checkmate!"
  else if E.isStalemate h.chess then "Stalemate!"
  else if E.isThreefoldRepetition h.chess then "Threefold repetition!"
  else if E.isInsufficientMaterial h.chess then "Insufficient material!"
  else if E.isDraw h.chess then "Draw!"
  else if E.inCheck h.chess then "Check!"
  else ""

/-- Object literal built inside `update()`. -/
def viewState (E : Engine Pos) (h : ChessHandler Pos) : ViewState :=
  { boardState := E.board h.chess
    selectedSquare := h.selectedSquare
    validMoves := h.validMoves
    notationString := getNotationString E h
    turn := E.turn h.chess
    isAwaitingPromotion := h.promotionMove.isSome
    moveCount := h.moveHistory.length
    gameStatus := getGameStatus E h
    isGameOver := isGameOver E h
    gameStateFlags := getGameStateFlags E h
    kingPositions := getKingPositions E h
    isCheck := E.inCheck h.chess
    lastMove := h.lastMove }

/-- Method `update()`: hands the projection to `onUpdate`. -/
def update (E : Engine Pos) (h : ChessHandler Pos) : ChessHandler Pos :=
  { h with trace := h.trace ++ [Effect.updated (viewState E h)] }

/-- Method `reset()`. -/
def reset (E : Engine Pos) (h : ChessHandler Pos) : ChessHandler Pos :=
  update E
    { chess := E.newGame
      selectedSquare := none
      validMoves := []
      promotionMove := none
      moveHistory := []
      lastMove := none
      trace := h.trace }

/-- Audio element chosen by `playMoveSound(move)`. -/
def moveCue (E : Engine Pos) (h : ChessHandler Pos) (move : Move) : Cue :=
  if isGameOver E h then Cue.gameOverAudio
  else if E.inCheck h.chess then Cue.checkAudio
  else if move.flags.contains 'c' then Cue.captureAudio
  else Cue.moveAudio

/-- Method `playMoveSound(move)`.  A rejected `play()` promise is caught and
logged inside the method and changes nothing else. -/
def playMoveSound (E : Engine Pos) (h : ChessHandler Pos) (move : Move) : ChessHandler Pos :=
  { h with trace := h.trace ++ [Effect.played (moveCue E h move)] }

/-- Method `makeMove(from, to, promotionPiece)`: the `try`/`catch` around
`this.chess.move`, then the `if (move)` block. -/
def makeMove (E : Engine Pos) (h : ChessHandler Pos) (from_ to_ : Square)
    (promotionPiece : Option PieceSymbol) : ChessHandler Pos :=
  let req : MoveRequest := { from_ := from_, to_ := to_, promotion := promotionPiece }
  match E.move h.chess req with
  | Except.error message =>
    { h with trace := h.trace ++ [Effect.moveCall req false, Effect.errorLogged message] }
  | Except.ok none =>
    { h with trace := h.trace ++ [Effect.moveCall req false] }
  | Except.ok (some (move, pos)) =>
    playMoveSound E
      { h with
        chess := pos
        moveHistory := h.moveHistory ++ [move]
        lastMove := some (move.from_, move.to_)
        trace := h.trace ++ [Effect.moveCall req true] }
      move

/-- Method `handleSquareClick(squareId)`. -/
def handleSquareClick (E : Engine Pos) (h : ChessHandler Pos) (squareId : Square) :
    ChessHandler Pos :=
  match h.selectedSquare with
  | some selected =>
    let piece := E.get h.chess selected
    if isPawn piece && onEdgeRank squareId then
      update E (update E { h with promotionMove := some (selected, squareId) })
    else
      update E { makeMove E h selected squareId none with
        selectedSquare := none
        validMoves := [] }
  | none =>
    let piece := E.get h.chess squareId
    if isMovable E h.chess piece then
      update E { h with
        selectedSquare := some squareId
        validMoves := (E.moves h.chess squareId).map (fun m => m.to_) }
    else
      update E { h with selectedSquare := none, validMoves := [] }

/-- Method `handlePieceDrag(squareId)`. -/
def handlePieceDrag (E : Engine Pos) (h : ChessHandler Pos) (squareId : Square) :
    ChessHandler Pos :=
  let piece := E.get h.chess squareId
  if isMovable E h.chess piece then
    update E { h with
      selectedSquare := some squareId
      validMoves := (E.moves h.chess squareId).map (fun m => m.to_) }
  else h

/-- Method `handleDragDrop(from, to)`. -/
def handleDragDrop (E : Engine Pos) (h : ChessHandler Pos) (from_ to_ : Square) :
    ChessHandler Pos :=
  let piece := E.get h.chess from_
  let h1 :=
    if isPawn piece && onEdgeRank to_ then
      { h with promotionMove := some (from_, to_) }
    else
      makeMove E h from_ to_ none
  update E { h1 with selectedSquare := none, validMoves := [] }

/-- Method `handlePromotion(piece)`. -/
def handlePromotion (E : Engine Pos) (h : ChessHandler Pos) (piece : PieceSymbol) :
    ChessHandler Pos :=
  match h.promotionMove with
  | some (from_, to_) =>
    update E { makeMove E h from_ to_ (some piece) with promotionMove := none }
  | none => h

end ChessHandler

/-! ## Input events and reachable states -/

/-- Events the presentation surface delivers (`utils.js`, `setupChess`, and
the reset button of the pages). -/
inductive InputEvent
  | squareClicked (square : Square)
  | dragStarted (square : Square)
  | dropped (from_ to_ : Square)
  | promotionChosen (piece : PieceSymbol)
  | reset
  deriving DecidableEq, Repr

/-- Dispatch of one input event to the handler method bound to it. -/
def step {Pos : Type} (E : Engine Pos) (h : ChessHandler Pos) : InputEvent → ChessHandler Pos
  | InputEvent.squareClicked sq => ChessHandler.handleSquareClick E h sq
  | InputEvent.dragStarted sq => ChessHandler.handlePieceDrag E h sq
  | InputEvent.dropped f t => ChessHandler.handleDragDrop E h f t
  | InputEvent.promotionChosen pc => ChessHandler.handlePromotion E h pc
  | InputEvent.reset => ChessHandler.reset E h

/-- Events are processed to completion one after the other. -/
def run {Pos : Type} (E : Engine Pos) (h : ChessHandler Pos) (events : List InputEvent) :
    ChessHandler Pos :=
  events.foldl (step E) h

/-- States reachable from `reset()` by any sequence of input events.  The
handler `h0` stands for the instance before the call; `reset` overwrites every
session field of it. -/
inductive Reachable {Pos : Type} (E : Engine Pos) : ChessHandler Pos → Prop
  | afterReset (h0 : ChessHandler Pos) : Reachable E (ChessHandler.reset E h0)
  | afterEvent (h : ChessHandler Pos) (ev : InputEvent) :
      Reachable E h → Reachable E (step E h ev)

/-! ## What the handler relies on from the rules engine -/

/-- Contract of the rules engine that the handler's correctness leans on
(chess.js meets it): a fresh game has an empty history; an applied move adds
its notation to the end of the history, echoes the requested squares in its
record, and is one of the legal moves `moves` lists for its origin square. -/
structure Engine.Lawful {Pos : Type} (E : Engine Pos) : Prop where
  history_newGame : E.history E.newGame = []
  history_move : ∀ pos req mv pos1, E.move pos req = Except.ok (some (mv, pos1)) →
    E.history pos1 = E.history pos ++ [mv.san]
  move_echo : ∀ pos req mv pos1, E.move pos req = Except.ok (some (mv, pos1)) →
    mv.from_ = req.from_ ∧ mv.to_ = req.to_
  move_legal : ∀ pos req mv pos1, E.move pos req = Except.ok (some (mv, pos1)) →
    req.to_ ∈ (E.moves pos req.from_).map (fun m => m.to_)

/-! ## A small concrete rules engine

`MiniChess` is an executable engine used to run the handler on concrete
games.  It implements piece movement, captures, the double pawn step,
promotion and the rule that a move may not leave the own king attacked; it has
no castling, no en passant and no draw detection, and its notation carries no
disambiguation.  On the positions used below it agrees with chess.js. -/

namespace MiniChess

/-- Engine position: occupied squares, side to move, notation of the moves
applied so far. -/
structure Position where
  pieces : List (Square × Piece)
  turn : Color
  history : List String
  deriving DecidableEq, Repr

/-- Square with file index `f` and rank index `r`, both counted from zero. -/
def mkSquare (f r : Nat) : Square :=
  { file := Char.ofNat (97 + f), rank := Char.ofNat (49 + r) }

/-- File index of a square (`'a'` is 0). -/
def fileIx (sq : Square) : Int := (sq.file.toNat : Int) - 97

/-- Rank index of a square (`'1'` is 0). -/
def rankIx (sq : Square) : Int := (sq.rank.toNat : Int) - 49

/-- Square at the given coordinates when they lie on the board. -/
def squareAt (f r : Int) : Option Square :=
  if 0 ≤ f ∧ f < 8 ∧ 0 ≤ r ∧ r < 8 then some (mkSquare f.toNat r.toNat) else none

/-- Piece standing on a square. -/
def pieceAt (pieces : List (Square × Piece)) (sq : Square) : Option Piece :=
  (pieces.find? (fun e => e.1 = sq)).map (fun e => e.2)

/-- The other side. -/
def other : Color → Color
  | Color.w => Color.b
  | Color.b => Color.w

/-- Squares a leaper (knight, king) of colour `c` on `sq` may go to. -/
def leaps (pieces : List (Square × Piece)) (c : Color) (sq : Square)
    (offsets : List (Int × Int)) : List Square :=
  offsets.filterMap (fun d =>
    match squareAt (fileIx sq + d.1) (rankIx sq + d.2) with
    | some t =>
      match pieceAt pieces t with
      | some pc => if pc.color = c then none else some t
      | none => some t
    | none => none)

/-- Squares along one ray from `(f, r)`, stopping at the first piece. -/
def ray (pieces : List (Square × Piece)) (c : Color) (df dr : Int) :
    Nat → Int → Int → List Square
  | 0, _, _ => []
  | fuel + 1, f, r =>
    match squareAt (f + df) (r + dr) with
    | some t =>
      match pieceAt pieces t with
      | some pc => if pc.color = c then [] else [t]
      | none => t :: ray pieces c df dr fuel (f + df) (r + dr)
    | none => []

/-- Squares a slider of colour `c` on `sq` may go to along the directions. -/
def slides (pieces : List (Square × Piece)) (c : Color) (sq : Square)
    (dirs : List (Int × Int)) : List Square :=
  dirs.flatMap (fun d => ray pieces c d.1 d.2 7 (fileIx sq) (rankIx sq))

/-- Knight offsets. -/
def knightOffsets : List (Int × Int) :=
  [(-2, -1), (-2, 1), (-1, -2), (-1, 2), (1, -2), (1, 2), (2, -1), (2, 1)]

/-- Diagonal directions. -/
def diagonals : List (Int × Int) := [(-1, -1), (-1, 1), (1, -1), (1, 1)]

/-- Orthogonal directions. -/
def orthogonals : List (Int × Int) := [(-1, 0), (1, 0), (0, -1), (0, 1)]

/-- Squares a pawn of colour `c` on `sq` may go to. -/
def pawnTargets (pieces : List (Square × Piece)) (c : Color) (sq : Square) : List Square :=
  let dir : Int := if c = Color.w then 1 else -1
  let home : Int := if c = Color.w then 1 else 6
  let f := fileIx sq
  let r := rankIx sq
  let one : List Square :=
    match squareAt f (r + dir) with
    | some t => if (pieceAt pieces t).isNone then [t] else []
    | none => []
  let two : List Square :=
    if r = home ∧ ¬ one.isEmpty then
      match squareAt f (r + 2 * dir) with
      | some t => if (pieceAt pieces t).isNone then [t] else []
      | none => []
    else []
  let takes : List Square :=
    [(-1 : Int), 1].filterMap (fun df =>
      match squareAt (f + df) (r + dir) with
      | some t =>
        match pieceAt pieces t with
        | some pc => if pc.color = c then none else some t
        | none => none
      | none => none)
  one ++ two ++ takes

/-- Squares the piece `pc` on `sq` may go to, the safety of its king aside. -/
def targets (pieces : List (Square × Piece)) (pc : Piece) (sq : Square) : List Square :=
  match pc.type with
  | PieceSymbol.p => pawnTargets pieces pc.color sq
  | PieceSymbol.n => leaps pieces pc.color sq knightOffsets
  | PieceSymbol.b => slides pieces pc.color sq diagonals
  | PieceSymbol.r => slides pieces pc.color sq orthogonals
  | PieceSymbol.q => slides pieces pc.color sq (diagonals ++ orthogonals)
  | PieceSymbol.k => leaps pieces pc.color sq (diagonals ++ orthogonals)

/-- Whether some piece of colour `c` could capture on the square of the
king of the other colour. -/
def attacksKing (pieces : List (Square × Piece)) (c : Color) : Bool :=
  pieces.any (fun e =>
    e.2.color = c ∧
      (targets pieces e.2 e.1).any (fun t =>
        pieceAt pieces t = some { type := PieceSymbol.k, color := other c }))

/-- Placement after the piece on `a` has gone to `b`, promoted when asked. -/
def place (pieces : List (Square × Piece)) (a b : Square) (pc : Piece)
    (promotion : Option PieceSymbol) : List (Square × Piece) :=
  let moved : Piece :=
    match promotion with
    | some t => { type := t, color := pc.color }
    | none => pc
  (b, moved) :: pieces.filter (fun e => e.1 ≠ a ∧ e.1 ≠ b)

/-- Targets of the piece on `sq` that do not leave its own king attacked. -/
def safeTargets (pieces : List (Square × Piece)) (pc : Piece) (sq : Square) : List Square :=
  (targets pieces pc sq).filter (fun t =>
    ¬ attacksKing (place pieces sq t pc none) (other pc.color))

/-- Whether the side `c` has a legal move. -/
def hasLegalMove (pieces : List (Square × Piece)) (c : Color) : Bool :=
  pieces.any (fun e => e.2.color = c ∧ ¬ (safeTargets pieces e.2 e.1).isEmpty)

/-- Upper-case letter of a piece in notation; a pawn has none. -/
def letter : PieceSymbol → String
  | PieceSymbol.p => ""
  | PieceSymbol.n => "N"
  | PieceSymbol.b => "B"
  | PieceSymbol.r => "R"
  | PieceSymbol.q => "Q"
  | PieceSymbol.k => "K"

/-- Notation of a move of `pc` from `a` to `b` in the placement `pieces`. -/
def sanOf (pieces : List (Square × Piece)) (pc : Piece) (a b : Square)
    (promotion : Option PieceSymbol) : String :=
  let capture := (pieceAt pieces b).isSome
  let head :=
    if pc.type = PieceSymbol.p then (if capture then String.singleton a.file else "")
    else letter pc.type
  let promo :=
    match promotion with
    | some t => "=" ++ letter t
    | none => ""
  let after := place pieces a b pc promotion
  let mark :=
    if attacksKing after pc.color then
      (if hasLegalMove after (other pc.color) then "+" else "#")
    else ""
  head ++ (if capture then "x" else "") ++ String.mk [b.file, b.rank] ++ promo ++ mark

/-- Flag letters of a move, in the order chess.js writes them. -/
def flagsOf (pieces : List (Square × Piece)) (pc : Piece) (a b : Square)
    (promotion : Option PieceSymbol) : List Char :=
  let base : List Char :=
    if (pieceAt pieces b).isSome then ['c']
    else if pc.type = PieceSymbol.p ∧ (rankIx b - rankIx a = 2 ∨ rankIx a - rankIx b = 2) then ['b']
    else ['n']
  base ++ (if promotion.isSome then ['p'] else [])

/-- Move record of `pc` going from `a` to `b`. -/
def record (pieces : List (Square × Piece)) (pc : Piece) (a b : Square)
    (promotion : Option PieceSymbol) : Move :=
  { color := pc.color
    from_ := a
    to_ := b
    piece := pc.type
    captured := (pieceAt pieces b).map (fun x => x.type)
    promotion := promotion
    flags := flagsOf pieces pc a b promotion
    san := sanOf pieces pc a b promotion }

/-- Legal moves of the piece on `sq`, for the side to move; a pawn reaching
the last rank yields one move per promotion piece. -/
def legalMoves (pos : Position) (sq : Square) : List Move :=
  match pieceAt pos.pieces sq with
  | some pc =>
    if pc.color = pos.turn then
      (safeTargets pos.pieces pc sq).flatMap (fun t =>
        if pc.type = PieceSymbol.p ∧ (t.rank = '8' ∨ t.rank = '1') then
          [PieceSymbol.q, PieceSymbol.r, PieceSymbol.b, PieceSymbol.n].map
            (fun x => record pos.pieces pc sq t (some x))
        else [record pos.pieces pc sq t none])
    else []
  | none => []

/-- Position after a legal move. -/
def applyMove (pos : Position) (mv : Move) : Position :=
  { pieces := place pos.pieces mv.from_ mv.to_ { type := mv.piece, color := mv.color } mv.promotion
    turn := other pos.turn
    history := pos.history ++ [mv.san] }

/-- Engine `move`: the first legal move of the origin square that matches the
destination and, for a promotion, the requested piece; an error otherwise. -/
def move (pos : Position) (req : MoveRequest) : Except String (Option (Move × Position)) :=
  match (legalMoves pos req.from_).find?
      (fun m => m.to_ = req.to_ ∧ (m.promotion = none ∨ m.promotion = req.promotion)) with
  | some mv => Except.ok (some (mv, applyMove pos mv))
  | none => Except.error "Invalid move"

/-- Grid of `chess.board()`: row 0 is rank 8, column 0 is file a. -/
def board (pos : Position) : Board := fun r c =>
  let sq := mkSquare c.val (7 - r.val)
  (pieceAt pos.pieces sq).map (fun pc => { square := sq, type := pc.type, color := pc.color })

/-- Whether the side to move is in check. -/
def inCheck (pos : Position) : Bool := attacksKing pos.pieces (other pos.turn)

/-- Back-rank piece types from file a to file h. -/
def backRank : List PieceSymbol :=
  [PieceSymbol.r, PieceSymbol.n, PieceSymbol.b, PieceSymbol.q,
   PieceSymbol.k, PieceSymbol.b, PieceSymbol.n, PieceSymbol.r]

/-- Starting position of chess. -/
def start : Position :=
  { pieces :=
      (List.range 8).flatMap (fun f =>
        [ (mkSquare f 0, { type := backRank.getD f PieceSymbol.p, color := Color.w }),
          (mkSquare f 1, { type := PieceSymbol.p, color := Color.w }),
          (mkSquare f 6, { type := PieceSymbol.p, color := Color.b }),
          (mkSquare f 7, { type := backRank.getD f PieceSymbol.p, color := Color.b }) ])
    turn := Color.w
    history := [] }

/-- The engine assembled from the functions above. -/
def engine : Engine Position :=
  { newGame := start
    get := fun pos sq => pieceAt pos.pieces sq
    turn := fun pos => pos.turn
    moves := legalMoves
    move := move
    history := fun pos => pos.history
    board := board
    inCheck := inCheck
    isCheckmate := fun pos => inCheck pos && ! hasLegalMove pos.pieces pos.turn
    isStalemate := fun pos => ! inCheck pos && ! hasLegalMove pos.pieces pos.turn
    isThreefoldRepetition := fun _ => false
    isInsufficientMaterial := fun _ => false
    isDraw := fun pos => ! inCheck pos && ! hasLegalMove pos.pieces pos.turn
    isGameOver := fun pos => ! hasLegalMove pos.pieces pos.turn }

end MiniChess

/-! ## Observations on the trace and on the engine -/

/-- Engine `move` calls recorded in a trace, in order: the request of each
call and whether the engine applied it. -/
def moveCalls : List Effect → List (MoveRequest × Bool)
  | [] => []
  | Effect.moveCall req applied :: rest => (req, applied) :: moveCalls rest
  | _ :: rest => moveCalls rest

/-- Messages written by `console.error` recorded in a trace, in order. -/
def errorsLogged : List Effect → List String
  | [] => []
  | Effect.errorLogged message :: rest => message :: errorsLogged rest
  | _ :: rest => errorsLogged rest

/-- Whether the engine refuses a request in a position: `move` throws or
returns a falsy value. -/
def isRejected {Pos : Type} (E : Engine Pos) (pos : Pos) (req : MoveRequest) : Bool :=
  match E.move pos req with
  | Except.ok (some _) => false
  | _ => true

/-- The handler's history lists exactly the moves whose notation the engine's
own history holds. -/
def InStep {Pos : Type} (E : Engine Pos) (h : ChessHandler Pos) : Prop :=
  h.moveHistory.map (fun m => m.san) = E.history h.chess

/-! ## Concrete sessions on `MiniChess` -/

namespace MiniChess

/-- Square d2. -/
def d2 : Square := { file := 'd', rank := '2' }

/-- Square e2. -/
def e2 : Square := { file := 'e', rank := '2' }

/-- Square e4. -/
def e4 : Square := { file := 'e', rank := '4' }

/-- Square e5. -/
def e5 : Square := { file := 'e', rank := '5' }

/-- Square e7. -/
def e7 : Square := { file := 'e', rank := '7' }

/-- Square e8. -/
def e8 : Square := { file := 'e', rank := '8' }

/-- Square f3. -/
def f3 : Square := { file := 'f', rank := '3' }

/-- Square g1. -/
def g1 : Square := { file := 'g', rank := '1' }

/-- Square e1. -/
def e1 : Square := { file := 'e', rank := '1' }

/-- Handler on an arbitrary placement with nothing selected or pending. -/
def idleOn (pos : Position) : ChessHandler Position :=
  { chess := pos
    selectedSquare := none
    validMoves := []
    promotionMove := none
    moveHistory := []
    lastMove := none
    trace := [] }

/-- Session right after construction and the first `reset()`. -/
def fresh : ChessHandler Position := ChessHandler.reset engine (idleOn start)

/-- White king e1, white pawn e7, black king a6, white to move: the pawn
can step to the empty square e8. -/
def pawnOnSeventh : Position :=
  { pieces :=
      [ ({ file := 'e', rank := '1' }, { type := PieceSymbol.k, color := Color.w }),
        ({ file := 'e', rank := '7' }, { type := PieceSymbol.p, color := Color.w }),
        ({ file := 'a', rank := '6' }, { type := PieceSymbol.k, color := Color.b }) ]
    turn := Color.w
    history := [] }

/-- Fresh game in which the e2 pawn has been clicked. -/
def pawnSelected : ChessHandler Position :=
  run engine fresh [InputEvent.squareClicked e2]

/-- Fresh game in which the e2 pawn has been dragged onto e8: the handler
awaits a promotion choice for (e2, e8). -/
def pendingByDrop : ChessHandler Position :=
  run engine fresh [InputEvent.dragStarted e2, InputEvent.dropped e2 e8]

/-- Session on `pawnOnSeventh` in which the e7 pawn has been clicked. -/
def seventhSelected : ChessHandler Position :=
  ChessHandler.handleSquareClick engine (idleOn pawnOnSeventh) e7

/-- Session on `pawnOnSeventh` in which the e7 pawn has been dropped on e8. -/
def seventhPending : ChessHandler Position :=
  ChessHandler.handleDragDrop engine (idleOn pawnOnSeventh) e7 e8

end MiniChess


/-! ## Further observations -/

/-- Projections handed to `onUpdate` recorded in a trace, in order. -/
def projections : List Effect → List ViewState
  | [] => []
  | Effect.updated view :: rest => view :: projections rest
  | _ :: rest => projections rest

/-- Audio cues recorded in a trace, in order. -/
def cuesPlayed : List Effect → List Cue
  | [] => []
  | Effect.played cue :: rest => cue :: cuesPlayed rest
  | _ :: rest => cuesPlayed rest

/-- Whether `validMoves` fits the selection: empty when nothing is selected,
and the destinations the engine lists for the selected square in the current
position otherwise. -/
def SelectionConsistent {Pos : Type} (E : Engine Pos) (h : ChessHandler Pos) : Prop :=
  match h.selectedSquare with
  | none => h.validMoves = []
  | some s => h.validMoves = (E.moves h.chess s).map (fun m => m.to_)

/-- The six session fields of the data model, without the trace. -/
def session {Pos : Type} (h : ChessHandler Pos) :
    Pos × List Move × Option (Square × Square) × Option Square × List Square ×
      Option (Square × Square) :=
  (h.chess, h.moveHistory, h.lastMove, h.selectedSquare, h.validMoves, h.promotionMove)

/-- Status by priority as the specification words it: the string of the first
condition that holds, the empty string when none holds. -/
def statusByPriority : List (Bool × String) → String
  | [] => ""
  | (holds, text) :: rest => if holds then text else statusByPriority rest

/-- The `(from, to)` pair of the last entry of a history, if there is one. -/
def lastPair (history : List Move) : Option (Square × Square) :=
  history.getLast?.map (fun m => (m.from_, m.to_))

/-! ## Further concrete sessions on `MiniChess` -/

namespace MiniChess

/-- Square a5. -/
def a5 : Square := { file := 'a', rank := '5' }

/-- Square a6. -/
def a6 : Square := { file := 'a', rank := '6' }

/-- Square a7. -/
def a7 : Square := { file := 'a', rank := '7' }

/-- Square d5. -/
def d5 : Square := { file := 'd', rank := '5' }

/-- Square d6. -/
def d6 : Square := { file := 'd', rank := '6' }

/-- Square d7. -/
def d7 : Square := { file := 'd', rank := '7' }

/-- Square g5. -/
def g5 : Square := { file := 'g', rank := '5' }

/-- Square g7. -/
def g7 : Square := { file := 'g', rank := '7' }

/-- Square g8. -/
def g8 : Square := { file := 'g', rank := '8' }

/-- Square h2. -/
def h2 : Square := { file := 'h', rank := '2' }

/-- Square h4. -/
def h4 : Square := { file := 'h', rank := '4' }

/-- Square h6. -/
def h6 : Square := { file := 'h', rank := '6' }

/-- Square h7. -/
def h7 : Square := { file := 'h', rank := '7' }

/-- Drags of the game 1. h4 g5 2. hxg5 h6 3. gxh6 a6 4. h7 a5, after which
the white pawn on h7 can capture on g8 and promote. -/
def marchToSeventh : List InputEvent :=
  [ InputEvent.dropped h2 h4, InputEvent.dropped g7 g5,
    InputEvent.dropped h4 g5, InputEvent.dropped h7 h6,
    InputEvent.dropped g5 h6, InputEvent.dropped a7 a6,
    InputEvent.dropped h6 h7, InputEvent.dropped a6 a5 ]

/-- Session of a fresh game after `marchToSeventh` in which the h7 pawn has
been clicked (it is selected) and g8 has been
clicked (the promotion (h7, g8) is pending). -/
def promotionByClicks : ChessHandler Position :=
  run engine fresh
    (marchToSeventh ++ [InputEvent.squareClicked h7, InputEvent.squareClicked g8])

/-- Session `promotionByClicks` after a queen has been chosen: the engine has
applied hxg8=Q. -/
def promotedByClicks : ChessHandler Position :=
  step engine promotionByClicks (InputEvent.promotionChosen PieceSymbol.q)

/-- Position of a fresh game after 1. e4 a6 2. e5 d5: the white pawn on e5
stands beside the black pawn that has just made a double step. -/
def beforeEnPassant : Position :=
  (run engine fresh
    [ InputEvent.dropped e2 e4, InputEvent.dropped a7 a6,
      InputEvent.dropped e4 e5, InputEvent.dropped d7 d5 ]).chess

/-- Move record chess.js returns for the en-passant capture 3. exd6 in
`beforeEnPassant`: the captured piece is a pawn and the only flag is `e`. -/
def enPassantRecord : Move :=
  { color := Color.w
    from_ := e5
    to_ := d6
    piece := PieceSymbol.p
    captured := some PieceSymbol.p
    promotion := none
    flags := ['e']
    san := "exd6" }

/-- Position after the en-passant capture 3. exd6: the white pawn stands on
d6, the black pawn has left d5, black is to move. -/
def afterEnPassant : Position :=
  { pieces :=
      (d6, { type := PieceSymbol.p, color := Color.w }) ::
        beforeEnPassant.pieces.filter (fun e => e.1 ≠ e5 ∧ e.1 ≠ d5)
    turn := Color.b
    history := beforeEnPassant.history ++ [enPassantRecord.san] }

end MiniChess

/-! ## The board component (`public/chess-board.js`) and its wiring -/

namespace ChessBoard

/-- Custom events the board element dispatches: `square-click`,
`piece-dragged` and `piece-dropped`, with their `detail`. -/
inductive BoardEvent
  | squareClick (square : Square)
  | pieceDragged (square : Square)
  | pieceDropped (from_ to_ : Square)
  deriving DecidableEq, Repr

/-- The two drag fields of a `ChessBoard` element. -/
structure DragState where
  mouseDownSquare : Option Square
  isDragging : Bool
  deriving DecidableEq, Repr

/-- Values the constructor assigns. -/
def initial : DragState := { mouseDownSquare := none, isDragging := false }

/-- Method `handleSquareClick(squareId)`: dispatches `square-click`. -/
def handleSquareClick (squareId : Square) : List BoardEvent :=
  [BoardEvent.squareClick squareId]

/-- Method `handleMouseDown(e, squareId)`. -/
def handleMouseDown (_s : DragState) (squareId : Square) : DragState × List BoardEvent :=
  ({ mouseDownSquare := some squareId, isDragging := true },
    [BoardEvent.pieceDragged squareId])

/-- Method `handleMouseUp()` (lines 147-152), written as the `mouseup`
listener of the document: it clears `isDragging` and leaves `mouseDownSquare`
as it is. -/
def handleMouseUp (s : DragState) : DragState :=
  if s.isDragging = false then s else { s with isDragging := false }

/-- Method `handleSquareMouseUp(targetSquareId)`. -/
def handleSquareMouseUp (s : DragState) (targetSquareId : Square) :
    DragState × List BoardEvent :=
  let emitted : List BoardEvent :=
    match s.mouseDownSquare with
    | some from_ =>
      if from_ ≠ targetSquareId then [BoardEvent.pieceDropped from_ targetSquareId] else []
    | none => []
  ({ s with mouseDownSquare := none }, emitted)

/-- Methods the class `ChessBoard` defines, by name (lines 79-165).  There is
no `handleMouseMove`. -/
def methods : List String :=
  ["createBoardElements", "render", "handleSquareClick", "handleMouseDown", "handleMouseUp",
    "handleSquareMouseUp", "togglePromotionDialog"]

/-- Statements of the constructor that follow `this.createBoardElements()`:
`this.m = this.m.bind(this)` and `document.addEventListener(type, this.m)`. -/
inductive ConstructorStep
  | bindMethod (method : String)
  | listenOnDocument (type method : String)
  deriving DecidableEq, Repr

/-- Lines 71-75 of the constructor, in order.  Line 76, the registration of a
`mousemove` listener, is a comment and is not a statement. -/
def constructorTail : List ConstructorStep :=
  [ConstructorStep.bindMethod "handleMouseDown",
   ConstructorStep.bindMethod "handleMouseUp",
   ConstructorStep.bindMethod "handleMouseMove",
   ConstructorStep.listenOnDocument "mouseup" "handleMouseUp"]

/-- Listeners the statements register on the document, as (event type,
method).  For a name the class does not define `this.m` is `undefined`, so
`this.m.bind(this)` throws a `TypeError`: the constructor ends there and the
statements after it are not run.  The listeners `createBoardElements` put on
the squares and the pieces were registered before and stay. -/
def documentListeners : List ConstructorStep → List (String × String)
  | [] => []
  | ConstructorStep.bindMethod m :: rest =>
    if m ∈ methods then documentListeners rest else []
  | ConstructorStep.listenOnDocument t m :: rest => (t, m) :: documentListeners rest

/-- What a `mouseup` that reaches the document does to the drag fields:
`handleMouseUp` if the constructor registered it, nothing otherwise. -/
def documentMouseUp (s : DragState) : DragState :=
  if ("mouseup", "handleMouseUp") ∈ documentListeners constructorTail then handleMouseUp s
  else s

/-- Mouse input on the page, by the listeners it can reach
(`createBoardElements` and the constructor): a `mousedown` on the piece
element of a square; a `mouseup` over a square, which runs the listener of the
square and then bubbles to the document; a `mouseup` anywhere else, which
reaches the document only; a `click` on a square or on its piece element. -/
inductive Gesture
  | mouseDownOnPiece (square : Square)
  | mouseUpOnSquare (square : Square)
  | mouseUpOutside
  | click (square : Square)
  deriving DecidableEq, Repr

/-- Listeners run for one gesture: the new drag fields and the custom events
dispatched. -/
def listen (s : DragState) : Gesture → DragState × List BoardEvent
  | Gesture.mouseDownOnPiece sq => handleMouseDown s sq
  | Gesture.mouseUpOnSquare sq =>
    let r := handleSquareMouseUp s sq
    (documentMouseUp r.1, r.2)
  | Gesture.mouseUpOutside => (documentMouseUp s, [])
  | Gesture.click sq => (s, handleSquareClick sq)

/-- Gestures handled one after the other; the events dispatched, in order. -/
def listenAll (s : DragState) : List Gesture → DragState × List BoardEvent
  | [] => (s, [])
  | g :: rest =>
    let r := listen s g
    let r2 := listenAll r.1 rest
    (r2.1, r.2 ++ r2.2)

/-- A plain mouse click on the piece of a square: button down on the piece,
button up over the same square, then the click. -/
def plainClick (sq : Square) : List Gesture :=
  [Gesture.mouseDownOnPiece sq, Gesture.mouseUpOnSquare sq, Gesture.click sq]

end ChessBoard

/-- Listener bindings of `setupChess` in `utils.js`: the handler method each
board event is passed to. -/
def setupChess : ChessBoard.BoardEvent → InputEvent
  | ChessBoard.BoardEvent.squareClick sq => InputEvent.squareClicked sq
  | ChessBoard.BoardEvent.pieceDragged sq => InputEvent.dragStarted sq
  | ChessBoard.BoardEvent.pieceDropped a b => InputEvent.dropped a b

/-! ## JavaScript strings and truthiness -/

/-- Code points `String.prototype.trim` strips: white space and line
terminators of ECMAScript. -/
def isJsWhitespace (c : Char) : Bool :=
  let n := c.toNat
  n = 9 ∨ n = 10 ∨ n = 11 ∨ n = 12 ∨ n = 13 ∨ n = 32 ∨ n = 160 ∨ n = 5760 ∨
    (8192 ≤ n ∧ n ≤ 8202) ∨ n = 8232 ∨ n = 8233 ∨ n = 8239 ∨ n = 8287 ∨ n = 12288 ∨
    n = 65279

/-- Method `trim()` of a JavaScript string. -/
def jsTrim (s : String) : String :=
  String.mk (((s.data.dropWhile isJsWhitespace).reverse.dropWhile isJsWhitespace).reverse)

/-- Property `length` of a JavaScript string: the number of UTF-16 code
units. -/
def jsLength (s : String) : Nat :=
  (s.data.map (fun c => if c.toNat < 65536 then 1 else 2)).sum

/-- Truthiness of a request-body field that is absent (`none`) or a string. -/
def truthy (field : Option String) : Bool :=
  match field with
  | some s => s ≠ ""
  | none => false

/-! ## The submit handlers of `register.js` and `account.js` -/

namespace Forms

/-- What a submit handler does: it shows a message and returns, or it sends
a request with a JSON body. -/
inductive Outcome
  | message (text cls : String)
  | request (method url : String) (body : List (String × String))
  deriving DecidableEq, Repr

/-- Whether the handler sent a request. -/
def Outcome.isRequest : Outcome → Bool
  | Outcome.request _ _ _ => true
  | Outcome.message _ _ => false

/-- Submit listener of the registration form (`register.js`).  The arguments
are the values of the username field and of the notation display and the
number `parseInt` reads from the move counter, which `updateUI` writes from
`state.moveCount`. -/
def registerFormSubmit (usernameValue notationValue : String) (moveCount : Nat) : Outcome :=
  let username := jsTrim usernameValue
  let pattern := jsTrim notationValue
  if username = "" then
    Outcome.message "Please enter a username." "error"
  else if moveCount ≤ 20 then
    Outcome.message "Your password pattern must be more than 20 moves." "error"
  else if pattern = "" then
    Outcome.message "Please make at least one move for your pattern." "error"
  else
    Outcome.request "POST" "/api/register" [("username", username), ("password", pattern)]

/-- Submit listener of the account-update form (`account.js`). -/
def accountUpdateFormSubmit (newUsernameValue notationValue : String) (newMoveCount : Nat) :
    Outcome :=
  let newUsername := jsTrim newUsernameValue
  let newPassword := jsTrim notationValue
  if newUsername = "" ∧ newPassword = "" then
    Outcome.message "Please enter a new username or a new password pattern." "error"
  else if newPassword ≠ "" ∧ newMoveCount < 20 then
    Outcome.message "Your new password pattern must be at least 20 moves long." "error"
  else
    Outcome.request "PUT" "/api/account"
      ((if newUsername ≠ "" then [("newUsername", newUsername)] else []) ++
        (if newPassword ≠ "" then [("newPassword", newPassword)] else []))

end Forms

/-! ## Routes of `server.js` -/

namespace Server

/-- Response sent with `res.status(..).json(..)`; `res.json` alone sends
status 200.  Of the body the `success` flag and the `message` are kept. -/
structure Response where
  status : Nat
  success : Bool
  message : Option String
  deriving DecidableEq, Repr

/-- Row of the `notes` table. -/
structure Note where
  id : Nat
  user_id : Nat
  content : String
  tag : String
  deriving DecidableEq, Repr

/-- Row of the `users` table. -/
structure User where
  id : Nat
  username : String
  password_hash : String
  deriving DecidableEq, Repr

/-- Constant `minPasswordLength` (line 27):
`parseInt(process.env.MIN_PASSWORD_LENGTH, 10) || 8`, the argument being what
`parseInt` reads, `none` for `NaN`. -/
def minPasswordLength (configured : Option Int) : Int :=
  match configured with
  | some n => if n = 0 then 8 else n
  | none => 8

/-- Middleware `requireLogin`: with a falsy `req.session.userId` (absent, or
the number 0) it answers 401; otherwise it calls `next`, here with the user
id the route reads from the session. -/
def requireLogin {α : Type} (sessionUserId : Option Nat) (respond : Response → α)
    (next : Nat → α) : α :=
  match sessionUserId with
  | some userId =>
    if userId = 0 then respond { status := 401, success := false, message := some "Unauthorized" }
    else next userId
  | none => respond { status := 401, success := false, message := some "Unauthorized" }

/-- Trimmed `content` of a request body: the empty string when the field is
not a string. -/
def contentOf (content : Option String) : String :=
  match content with
  | some c => jsTrim c
  | none => ""

/-- Tag stored for a request body: `none` when the field is not a string or
is blank. -/
def tagOf (tag : Option String) : String :=
  let t :=
    match tag with
    | some x => jsTrim x
    | none => "none"
  if t = "" then "none" else t

/-- Whether a row is matched by `WHERE id = ? AND user_id = ?`.  The `id`
parameter is the integer SQLite reads from `req.params.id`, if it reads one. -/
def owns (noteId : Option Nat) (userId : Nat) (n : Note) : Bool :=
  noteId = some n.id ∧ n.user_id = userId

/-- Route `PUT /api/notes/:id`: the response and the `notes` table
afterwards.  `dbError` says whether SQLite reports an error for the
statement, in which case it changes no row. -/
def putNote (notes : List Note) (sessionUserId : Option Nat) (noteId : Option Nat)
    (content tag : Option String) (dbError : Bool) : Response × List Note :=
  requireLogin sessionUserId (fun r => (r, notes)) (fun userId =>
    if contentOf content = "" then
      ({ status := 400, success := false, message := some "Note content required." }, notes)
    else if dbError then
      ({ status := 500, success := false, message := some "Failed to update note." }, notes)
    else
      let changes := (notes.filter (owns noteId userId)).length
      let updated := notes.map (fun n =>
        if owns noteId userId n then { n with content := contentOf content, tag := tagOf tag }
        else n)
      if changes = 0 then
        ({ status := 404, success := false,
           message := some "Note not found or you do not have permission to edit it." },
          updated)
      else ({ status := 200, success := true, message := none }, updated))

/-- Route `DELETE /api/notes/:id`. -/
def deleteNote (notes : List Note) (sessionUserId : Option Nat) (noteId : Option Nat)
    (dbError : Bool) : Response × List Note :=
  requireLogin sessionUserId (fun r => (r, notes)) (fun userId =>
    if dbError then
      ({ status := 500, success := false, message := some "Failed to delete note." }, notes)
    else
      let changes := (notes.filter (owns noteId userId)).length
      let remaining := notes.filter (fun n => ! owns noteId userId n)
      if changes = 0 then
        ({ status := 404, success := false,
           message := some "Note not found or you do not have permission to delete it." },
          remaining)
      else ({ status := 200, success := true, message := none }, remaining))

/-- Password part of `PUT /api/account` (lines 150-168): `Except.error r`
when the handler returns after sending `r`, `Except.ok rs` when it goes on to
the username part, `rs` being what the callback of the queued update sends. -/
def accountPasswordPart (newPassword : Option String) (minLength : Int)
    (hashFails passwordUpdateFails : Bool) : Except Response (List Response) :=
  match newPassword with
  | some pw =>
    if pw = "" then Except.ok []
    else if (jsLength pw : Int) < minLength then
      Except.error
        { status := 400, success := false,
          message :=
            some ("New password must be at least " ++ toString minLength ++ " characters.") }
    else if hashFails then
      Except.error
        { status := 500, success := false, message := some "Server error updating password." }
    else if passwordUpdateFails then
      Except.ok
        [{ status := 500, success := false, message := some "Server error updating password." }]
    else
      Except.ok
        [{ status := 200, success := true, message := some "Account updated successfully." }]
  | none => Except.ok []

/-- Username part of `PUT /api/account` (lines 170-179): what the callback
of the queued update sends. -/
def accountUsernamePart (newUsername : Option String) (usernameUpdateFails : Bool) :
    List Response :=
  if truthy newUsername then
    if usernameUpdateFails then
      [{ status := 400, success := false, message := some "Username already taken." }]
    else [{ status := 200, success := true, message := some "Account updated successfully." }]
  else []

/-- Route `PUT /api/account`: every response the handler and the callbacks
it queues send with `res.json`, in order.  The three flags say whether
`bcrypt.hash` throws and whether SQLite reports an error for either update. -/
def putAccount (sessionUserId : Option Nat) (newUsername newPassword : Option String)
    (minLength : Int) (hashFails passwordUpdateFails usernameUpdateFails : Bool) :
    List Response :=
  requireLogin sessionUserId (fun r => [r]) (fun _ =>
    if ! truthy newUsername && ! truthy newPassword then
      [{ status := 400, success := false, message := some "No changes provided." }]
    else
      match accountPasswordPart newPassword minLength hashFails passwordUpdateFails with
      | Except.error r => [r]
      | Except.ok sent => sent ++ accountUsernamePart newUsername usernameUpdateFails)

/-- Message of the 400 answer of `POST /api/register`. -/
def registerRefusal (minLength : Int) : String :=
  "Username and password (min " ++ toString minLength ++ " chars) required."

/-- Route `POST /api/register`: the response and the `users` table
afterwards.  `hash` stands for `bcrypt.hash(password, 10)`, `none` when it
throws; the insert fails when the username is taken (`username TEXT UNIQUE`). -/
def postRegister (users : List User) (username password : Option String)
    (minLength : Int) (hash : String → Option String) : Response × List User :=
  match username, password with
  | some name, some pw =>
    if name = "" ∨ pw = "" ∨ (jsLength pw : Int) < minLength then
      ({ status := 400, success := false, message := some (registerRefusal minLength) }, users)
    else
      match hash pw with
      | none =>
        ({ status := 500, success := false,
           message := some "Server error during registration." }, users)
      | some password_hash =>
        if users.any (fun u => u.username = name) then
          ({ status := 500, success := false, message := some "Failed to register user." },
            users)
        else
          ({ status := 200, success := true, message := some "Registration successful." },
            users ++
              [{ id := (users.map (fun u => u.id)).foldl max 0 + 1, username := name,
                 password_hash := password_hash }])
  | _, _ =>
    ({ status := 400, success := false, message := some (registerRefusal minLength) }, users)

/-- Number of moves in a pattern as the registration form counts them: the
space-separated tokens of the notation string. -/
def patternMoves (pattern : String) : Nat :=
  ((pattern.data.splitOn ' ').filter (fun token => token ≠ [])).length

end Server

/-! ## The music player (`public/music-player.js`) -/

namespace MusicPlayer

/-- Value of `currentSongIndex`: an integer, or `none` for `NaN`. -/
abbrev JsIndex := Option Int

/-- JavaScript `a + b` for an index and an integer. -/
def jsAdd (a : JsIndex) (b : Int) : JsIndex :=
  a.map (fun x => x + b)

/-- JavaScript `a % n`: the remainder with the sign of the dividend, `NaN`
when the divisor is zero. -/
def jsMod (a : JsIndex) (n : Int) : JsIndex :=
  match a with
  | some x => if n = 0 then none else some (Int.tmod x n)
  | none => none

/-- State of the `musicPlayer` closure.  `audioElements` is built from
`playlist` element by element, so the playlist stands for both. -/
structure State where
  playlist : List String
  currentSongIndex : JsIndex
  isPlaying : Bool
  deriving DecidableEq, Repr

/-- State the closure starts in with a given playlist. -/
def loaded (playlist : List String) : State :=
  { playlist := playlist, currentSongIndex := some 0, isPlaying := false }

/-- Whether `audioElements[currentSongIndex]` is an element. -/
def hasCurrentAudio (s : State) : Bool :=
  match s.currentSongIndex with
  | some i => 0 ≤ i ∧ i < (s.playlist.length : Int)
  | none => false

/-- Function `pauseCurrentSong`. -/
def pauseCurrentSong (s : State) : State :=
  if hasCurrentAudio s then { s with isPlaying := false } else s

/-- Method `next()`: pause, advance the index, set `isPlaying`;
`playCurrentSong` then changes none of the three fields. -/
def next (s : State) : State :=
  let s1 := pauseCurrentSong s
  { s1 with
    currentSongIndex := jsMod (jsAdd s1.currentSongIndex 1) (s1.playlist.length : Int)
    isPlaying := true }

/-- Method `previous()`. -/
def previous (s : State) : State :=
  let s1 := pauseCurrentSong s
  { s1 with
    currentSongIndex :=
      jsMod (jsAdd (jsAdd s1.currentSongIndex (-1)) (s1.playlist.length : Int))
        (s1.playlist.length : Int)
    isPlaying := true }

/-- Calls the buttons of the player element make. -/
inductive Call
  | next
  | previous
  deriving DecidableEq, Repr

/-- One call applied to the state. -/
def call (s : State) : Call → State
  | Call.next => next s
  | Call.previous => previous s

/-- Calls applied one after the other. -/
def callAll (s : State) (calls : List Call) : State :=
  calls.foldl call s

/-- Index validity as the property words it: an integer `i` with
`0 ≤ i < max(1, playlist.length)`. -/
def ValidIndex (s : State) : Prop :=
  ∃ i : Int, s.currentSongIndex = some i ∧ 0 ≤ i ∧ i < max 1 (s.playlist.length : Int)

end MusicPlayer

/-! ## The concrete engine meets the contract -/

namespace MiniChess

theorem mem_legalMoves {pos : Position} {sq : Square} {m : Move} (hm : m ∈ legalMoves pos sq) :
    m.from_ = sq := by
  unfold legalMoves at hm
  split at hm
  · split at hm
    · simp only [List.mem_flatMap] at hm
      obtain ⟨t, _, ht⟩ := hm
      split at ht
      · simp only [List.map_cons, List.map_nil, List.mem_cons, List.mem_singleton] at ht
        rcases ht with h | h | h | h | h <;> simp_all [record]
      · simp_all [record]
    · simp at hm
  · simp at hm

theorem engine_lawful : engine.Lawful := by
  constructor
  · rfl
  · intro pos req mv pos1 h
    simp only [engine, move] at h
    split at h
    · simp only [Except.ok.injEq, Option.some.injEq, Prod.mk.injEq] at h
      obtain ⟨h1, h2⟩ := h
      subst h1 h2
      rfl
    · simp at h
  · intro pos req mv pos1 h
    simp only [engine, move] at h
    split at h
    · rename_i m hf
      simp only [Except.ok.injEq, Option.some.injEq, Prod.mk.injEq] at h
      obtain ⟨h1, h2⟩ := h
      subst h1
      have hmem := List.mem_of_find?_eq_some hf
      have hp := List.find?_some hf
      simp only [decide_eq_true_eq] at hp
      exact ⟨mem_legalMoves hmem, hp.1⟩
    · simp at h
  · intro pos req mv pos1 h
    simp only [engine, move] at h
    split at h
    · rename_i m hf
      have hmem := List.mem_of_find?_eq_some hf
      have hp := List.find?_some hf
      simp only [decide_eq_true_eq] at hp
      simp only [engine, List.mem_map]
      exact ⟨m, hmem, hp.1⟩
    · simp at h

end MiniChess

/-! ## Basic facts about the methods -/

section Basics

variable {Pos : Type} (E : Engine Pos) (h : ChessHandler Pos)

theorem moveCalls_append (xs ys : List Effect) :
    moveCalls (xs ++ ys) = moveCalls xs ++ moveCalls ys := by
  induction xs with
  | nil => rfl
  | cons x rest ih => cases x <;> simp [moveCalls, ih]

@[simp]
theorem update_chess : (ChessHandler.update E h).chess = h.chess := rfl
@[simp]
theorem update_selectedSquare :
    (ChessHandler.update E h).selectedSquare = h.selectedSquare := rfl
@[simp]
theorem update_validMoves : (ChessHandler.update E h).validMoves = h.validMoves := rfl
@[simp]
theorem update_promotionMove :
    (ChessHandler.update E h).promotionMove = h.promotionMove := rfl
@[simp]
theorem update_moveHistory : (ChessHandler.update E h).moveHistory = h.moveHistory := rfl
@[simp]
theorem update_lastMove : (ChessHandler.update E h).lastMove = h.lastMove := rfl
@[simp]
theorem update_moveCalls :
    moveCalls (ChessHandler.update E h).trace = moveCalls h.trace := by
  simp [ChessHandler.update, moveCalls_append, moveCalls]

variable (a b : Square) (promo : Option PieceSymbol)

@[simp]
theorem makeMove_selectedSquare :
    (ChessHandler.makeMove E h a b promo).selectedSquare = h.selectedSquare := by
  unfold ChessHandler.makeMove; dsimp only; split <;> rfl

@[simp]
theorem makeMove_validMoves :
    (ChessHandler.makeMove E h a b promo).validMoves = h.validMoves := by
  unfold ChessHandler.makeMove; dsimp only; split <;> rfl

@[simp]
theorem makeMove_promotionMove :
    (ChessHandler.makeMove E h a b promo).promotionMove = h.promotionMove := by
  unfold ChessHandler.makeMove; dsimp only; split <;> rfl

@[simp]
theorem makeMove_moveCalls :
    moveCalls (ChessHandler.makeMove E h a b promo).trace =
      moveCalls h.trace ++
        [({ from_ := a, to_ := b, promotion := promo },
          ! isRejected E h.chess { from_ := a, to_ := b, promotion := promo })] := by
  unfold ChessHandler.makeMove isRejected; dsimp only
  split <;> simp [ChessHandler.playMoveSound, moveCalls_append, moveCalls, *]

theorem makeMove_applied {mv : Move} {pos1 : Pos}
    (hm : E.move h.chess { from_ := a, to_ := b, promotion := promo } =
      Except.ok (some (mv, pos1))) :
    (ChessHandler.makeMove E h a b promo).chess = pos1 ∧
    (ChessHandler.makeMove E h a b promo).moveHistory = h.moveHistory ++ [mv] ∧
    (ChessHandler.makeMove E h a b promo).lastMove = some (mv.from_, mv.to_) := by
  unfold ChessHandler.makeMove; dsimp only
  rw [hm]
  exact ⟨rfl, rfl, rfl⟩

theorem makeMove_rejected
    (hm : isRejected E h.chess { from_ := a, to_ := b, promotion := promo } = true) :
    (ChessHandler.makeMove E h a b promo).chess = h.chess ∧
    (ChessHandler.makeMove E h a b promo).moveHistory = h.moveHistory ∧
    (ChessHandler.makeMove E h a b promo).lastMove = h.lastMove := by
  unfold ChessHandler.makeMove; dsimp only
  split
  · exact ⟨rfl, rfl, rfl⟩
  · exact ⟨rfl, rfl, rfl⟩
  · rename_i mv pos1 heq
    simp [isRejected, heq] at hm

/-- Every request is either applied or rejected. -/
theorem applied_or_rejected (pos : Pos) (req : MoveRequest) :
    (∃ mv pos1, E.move pos req = Except.ok (some (mv, pos1))) ∨ isRejected E pos req = true := by
  unfold isRejected
  split
  · rename_i r heq
    exact Or.inl ⟨r.1, r.2, heq⟩
  · exact Or.inr rfl

theorem isRejected_of_applied {pos : Pos} {req : MoveRequest} {mv : Move} {pos1 : Pos}
    (hm : E.move pos req = Except.ok (some (mv, pos1))) : isRejected E pos req = false := by
  simp [isRejected, hm]

end Basics

/-! ## Histories stay in step -/

theorem inStep_makeMove {Pos : Type} (E : Engine Pos) (hE : E.Lawful) (h : ChessHandler Pos)
    (a b : Square) (promo : Option PieceSymbol) (hs : InStep E h) :
    InStep E (ChessHandler.makeMove E h a b promo) := by
  rcases applied_or_rejected E h.chess { from_ := a, to_ := b, promotion := promo } with
    ⟨mv, pos1, hm⟩ | hr
  · obtain ⟨h1, h2, _⟩ := makeMove_applied E h a b promo hm
    unfold InStep at *
    rw [h1, h2, hE.history_move _ _ _ _ hm, List.map_append, hs]
    rfl
  · obtain ⟨h1, h2, _⟩ := makeMove_rejected E h a b promo hr
    unfold InStep at *
    rw [h1, h2, hs]

theorem inStep_step {Pos : Type} (E : Engine Pos) (hE : E.Lawful) (h : ChessHandler Pos)
    (ev : InputEvent) (hs : InStep E h) : InStep E (step E h ev) := by
  cases ev with
  | squareClicked sq =>
    simp only [step, ChessHandler.handleSquareClick]
    split
    · split
      · exact hs
      · exact inStep_makeMove E hE h _ _ _ hs
    · split <;> exact hs
  | dragStarted sq =>
    simp only [step, ChessHandler.handlePieceDrag]
    split <;> exact hs
  | dropped a b =>
    simp only [step, ChessHandler.handleDragDrop]
    split
    · exact hs
    · exact inStep_makeMove E hE h _ _ _ hs
  | promotionChosen pc =>
    simp only [step, ChessHandler.handlePromotion]
    split
    · exact inStep_makeMove E hE h _ _ _ hs
    · exact hs
  | reset =>
    simp only [step, InStep, ChessHandler.reset, update_moveHistory, update_chess]
    rw [hE.history_newGame]
    rfl

theorem inStep_of_reachable {Pos : Type} (E : Engine Pos) (hE : E.Lawful)
    (h : ChessHandler Pos) (hr : Reachable E h) : InStep E h := by
  induction hr with
  | afterReset h0 =>
    simp only [InStep, ChessHandler.reset, update_moveHistory, update_chess]
    rw [hE.history_newGame]
    rfl
  | afterEvent h ev _ ih => exact inStep_step E hE h ev ih

theorem reachable_run {Pos : Type} (E : Engine Pos) (h : ChessHandler Pos)
    (hr : Reachable E h) (events : List InputEvent) : Reachable E (run E h events) := by
  induction events generalizing h with
  | nil => exact hr
  | cons ev rest ih => exact ih (step E h ev) (Reachable.afterEvent h ev hr)

open ChessHandler

/-! ## Errors caught by `makeMove` and rejected calls in the log -/

section Errors

variable {Pos : Type} (E : Engine Pos) (h : ChessHandler Pos)

theorem errorsLogged_append (xs ys : List Effect) :
    errorsLogged (xs ++ ys) = errorsLogged xs ++ errorsLogged ys := by
  induction xs with
  | nil => rfl
  | cons x rest ih => cases x <;> simp [errorsLogged, ih]

@[simp]
theorem update_errorsLogged :
    errorsLogged (update E h).trace = errorsLogged h.trace := by
  simp [update, errorsLogged_append, errorsLogged]

theorem makeMove_thrown (a b : Square) (promo : Option PieceSymbol) (message : String)
    (hm : E.move h.chess { from_ := a, to_ := b, promotion := promo } =
      Except.error message) :
    errorsLogged (makeMove E h a b promo).trace = errorsLogged h.trace ++ [message] := by
  unfold makeMove; dsimp only
  rw [hm]
  simp [errorsLogged_append, errorsLogged]

/-- When the call log grows by one rejected call, that call is the one
`makeMove` made and the engine rejected it. -/
theorem rejected_of_moveCalls {a b : Square} {promo : Option PieceSymbol} {req : MoveRequest}
    {base : List (MoveRequest × Bool)}
    (hc : base ++ [(({ from_ := a, to_ := b, promotion := promo } : MoveRequest),
        ! isRejected E h.chess { from_ := a, to_ := b, promotion := promo })] =
      base ++ [(req, false)]) :
    req = { from_ := a, to_ := b, promotion := promo } ∧
    isRejected E h.chess { from_ := a, to_ := b, promotion := promo } = true := by
  have h1 := List.append_cancel_left hc
  simp only [List.cons.injEq, Prod.mk.injEq, and_true] at h1
  obtain ⟨h2, h3⟩ := h1
  refine ⟨h2.symm, ?_⟩
  cases hx : isRejected E h.chess { from_ := a, to_ := b, promotion := promo }
  · rw [hx] at h3
    cases h3
  · rfl

end Errors

/-! ## C1: history and position stay in step -/

/-- C1: in every state reachable from `reset()` the length of `moveHistory`
is the length of the engine's own history (the two list the same moves), and
a `makeMove` whose request the engine rejects leaves `moveHistory` and the
position as they were. -/
theorem moveHistory_in_step_with_engine {Pos : Type} (E : Engine Pos) (hE : E.Lawful) :
    (∀ h : ChessHandler Pos, Reachable E h →
      h.moveHistory.length = (E.history h.chess).length ∧
      h.moveHistory.map (fun m => m.san) = E.history h.chess) ∧
    (∀ (h : ChessHandler Pos) (a b : Square) (promo : Option PieceSymbol),
      isRejected E h.chess { from_ := a, to_ := b, promotion := promo } = true →
      (makeMove E h a b promo).moveHistory = h.moveHistory ∧
      (makeMove E h a b promo).chess = h.chess) := by
  refine ⟨fun h hr => ?_, fun h a b promo hrej => ?_⟩
  · have hs := inStep_of_reachable E hE h hr
    refine ⟨?_, hs⟩
    have hl := congrArg List.length hs
    simpa using hl
  · obtain ⟨h1, h2, _⟩ := makeMove_rejected E h a b promo hrej
    exact ⟨h2, h1⟩

/-- Witness for C1: a fresh game in which e2-e4 is played by two clicks,
e7-e5 by a drag, and the illegal e4-e5 is then tried by a drag. -/
theorem moveHistory_in_step_with_engine_witness :
    MiniChess.engine.Lawful ∧
    (run MiniChess.engine MiniChess.fresh
        [InputEvent.squareClicked MiniChess.e2, InputEvent.squareClicked MiniChess.e4,
         InputEvent.dragStarted MiniChess.e7, InputEvent.dropped MiniChess.e7 MiniChess.e5,
         InputEvent.dragStarted MiniChess.e4,
         InputEvent.dropped MiniChess.e4 MiniChess.e5]).moveHistory.length =
      (MiniChess.engine.history
        (run MiniChess.engine MiniChess.fresh
          [InputEvent.squareClicked MiniChess.e2, InputEvent.squareClicked MiniChess.e4,
           InputEvent.dragStarted MiniChess.e7, InputEvent.dropped MiniChess.e7 MiniChess.e5,
           InputEvent.dragStarted MiniChess.e4,
           InputEvent.dropped MiniChess.e4 MiniChess.e5]).chess).length ∧
    (run MiniChess.engine MiniChess.fresh
        [InputEvent.squareClicked MiniChess.e2, InputEvent.squareClicked MiniChess.e4,
         InputEvent.dragStarted MiniChess.e7, InputEvent.dropped MiniChess.e7 MiniChess.e5,
         InputEvent.dragStarted MiniChess.e4,
         InputEvent.dropped MiniChess.e4 MiniChess.e5]).moveHistory.length = 2 :=
  ⟨MiniChess.engine_lawful,
   ((moveHistory_in_step_with_engine MiniChess.engine MiniChess.engine_lawful).1 _
      (reachable_run _ _ (Reachable.afterReset _) _)).1,
   by decide⟩

/-! ## C2: what a committing event clears -/

/-- C2 counterexample, two commits.  First: in a fresh game the e2 pawn is
dragged onto e8, so a promotion is pending for (e2, e8); the pawn is then
dragged to e4; that drop commits a move (the history grows by one) and the
promotion is still pending after it.  Second: with white pawn e7 and king e1
the pawn is dragged onto e8 and the mouse is pressed on the king; choosing a
queen commits the promotion and e1 is still selected after it. -/
theorem commit_leaves_transient_state :
    (Reachable MiniChess.engine
        (run MiniChess.engine MiniChess.pendingByDrop [InputEvent.dragStarted MiniChess.e2]) ∧
      (step MiniChess.engine
          (run MiniChess.engine MiniChess.pendingByDrop [InputEvent.dragStarted MiniChess.e2])
          (InputEvent.dropped MiniChess.e2 MiniChess.e4)).moveHistory.length =
        (run MiniChess.engine MiniChess.pendingByDrop
          [InputEvent.dragStarted MiniChess.e2]).moveHistory.length + 1 ∧
      (step MiniChess.engine
          (run MiniChess.engine MiniChess.pendingByDrop [InputEvent.dragStarted MiniChess.e2])
          (InputEvent.dropped MiniChess.e2 MiniChess.e4)).promotionMove =
        some (MiniChess.e2, MiniChess.e8)) ∧
    ((step MiniChess.engine
          (run MiniChess.engine MiniChess.seventhPending [InputEvent.dragStarted MiniChess.e1])
          (InputEvent.promotionChosen PieceSymbol.q)).moveHistory.length =
        (run MiniChess.engine MiniChess.seventhPending
          [InputEvent.dragStarted MiniChess.e1]).moveHistory.length + 1 ∧
      (step MiniChess.engine
          (run MiniChess.engine MiniChess.seventhPending [InputEvent.dragStarted MiniChess.e1])
          (InputEvent.promotionChosen PieceSymbol.q)).selectedSquare =
        some MiniChess.e1) :=
  ⟨⟨reachable_run _ _ (reachable_run _ _ (Reachable.afterReset _) _) _, by decide, by decide⟩,
   by decide, by decide⟩

/-- C2 (amended): an event that commits a move (the history grows by one) is
a `squareClicked`, a `dropped` or a `promotionChosen`.  After the first two
`selectedSquare` is unset, `validMoves` is empty and `promotionMove` is what
it was before the event; after the third `promotionMove` is unset, and
`selectedSquare` is unset when it was unset before the event. -/
theorem commit_clears_transient_state {Pos : Type} (E : Engine Pos) (h : ChessHandler Pos)
    (ev : InputEvent)
    (hc : (step E h ev).moveHistory.length = h.moveHistory.length + 1) :
    match ev with
    | InputEvent.squareClicked _ =>
      (step E h ev).selectedSquare = none ∧ (step E h ev).validMoves = [] ∧
        (step E h ev).promotionMove = h.promotionMove
    | InputEvent.dropped _ _ =>
      (step E h ev).selectedSquare = none ∧ (step E h ev).validMoves = [] ∧
        (step E h ev).promotionMove = h.promotionMove
    | InputEvent.promotionChosen _ =>
      (step E h ev).promotionMove = none ∧
        (h.selectedSquare = none → (step E h ev).selectedSquare = none)
    | InputEvent.dragStarted _ => False
    | InputEvent.reset => False := by
  cases ev with
  | squareClicked sq =>
    simp only [step, handleSquareClick] at hc ⊢
    split at hc
    · split at hc
      · simp at hc
      · rename_i s hsel hnp
        simp [hsel, hnp]
    · split at hc <;> simp at hc
  | dragStarted sq =>
    simp only [step, handlePieceDrag] at hc ⊢
    split at hc <;> simp at hc
  | dropped a b =>
    simp only [step, handleDragDrop] at hc ⊢
    split at hc
    · simp at hc
    · rename_i hnp
      simp [hnp]
  | promotionChosen pc =>
    simp only [step, handlePromotion] at hc ⊢
    split at hc
    · rename_i a b hp
      simp [hp]
    · simp at hc
  | reset =>
    simp [step, reset] at hc

/-- Witness for C2 (amended): the second click of e2-e4 in a fresh game. -/
theorem commit_clears_transient_state_witness :
    (step MiniChess.engine MiniChess.pawnSelected
        (InputEvent.squareClicked MiniChess.e4)).moveHistory.length =
      MiniChess.pawnSelected.moveHistory.length + 1 ∧
    ((step MiniChess.engine MiniChess.pawnSelected
        (InputEvent.squareClicked MiniChess.e4)).selectedSquare = none ∧
      (step MiniChess.engine MiniChess.pawnSelected
        (InputEvent.squareClicked MiniChess.e4)).validMoves = [] ∧
      (step MiniChess.engine MiniChess.pawnSelected
        (InputEvent.squareClicked MiniChess.e4)).promotionMove =
        MiniChess.pawnSelected.promotionMove) :=
  ⟨by decide,
   commit_clears_transient_state MiniChess.engine MiniChess.pawnSelected
     (InputEvent.squareClicked MiniChess.e4) (by decide)⟩

/-! ## C3: selection and pending promotion -/

/-- C3 counterexample: in a fresh game the e2 pawn is dragged onto e8 (a
promotion becomes pending) and the mouse is then pressed on the d2 pawn.  The
state is reachable and has both `selectedSquare` and `promotionMove` set. -/
theorem selection_and_promotion_both_set :
    Reachable MiniChess.engine
      (run MiniChess.engine MiniChess.pendingByDrop [InputEvent.dragStarted MiniChess.d2]) ∧
    (run MiniChess.engine MiniChess.pendingByDrop
      [InputEvent.dragStarted MiniChess.d2]).selectedSquare = some MiniChess.d2 ∧
    (run MiniChess.engine MiniChess.pendingByDrop
      [InputEvent.dragStarted MiniChess.d2]).promotionMove =
      some (MiniChess.e2, MiniChess.e8) :=
  ⟨reachable_run _ _ (reachable_run _ _ (Reachable.afterReset _) _) _, by decide, by decide⟩

/-- C3 (amended): every `dropped` leaves `selectedSquare` unset and
`validMoves` empty, so a drop of a pawn onto rank 1 or 8, which makes a
promotion pending, clears the selection in the same step.  Nothing keeps the
two apart afterwards: while a promotion is pending, `dragStarted` on a piece
of the side to move selects its square, and so does `squareClicked` when
nothing is selected, and the promotion stays pending. -/
theorem drop_clears_selection_when_promotion_becomes_pending {Pos : Type} (E : Engine Pos)
    (h : ChessHandler Pos) :
    (∀ a b : Square,
      (handleDragDrop E h a b).selectedSquare = none ∧
      (handleDragDrop E h a b).validMoves = [] ∧
      (isPawn (E.get h.chess a) = true → onEdgeRank b = true →
        (handleDragDrop E h a b).promotionMove = some (a, b))) ∧
    (∀ (p : Square × Square) (sq : Square), h.promotionMove = some p →
      isMovable E h.chess (E.get h.chess sq) = true →
      ((handlePieceDrag E h sq).selectedSquare = some sq ∧
        (handlePieceDrag E h sq).promotionMove = some p) ∧
      (h.selectedSquare = none →
        (handleSquareClick E h sq).selectedSquare = some sq ∧
        (handleSquareClick E h sq).promotionMove = some p)) := by
  refine ⟨fun a b => ⟨rfl, rfl, fun h1 h2 => ?_⟩, fun p sq hp hm => ⟨?_, fun hs => ?_⟩⟩
  · simp [handleDragDrop, h1, h2]
  · simp [handlePieceDrag, hm, hp]
  · simp [handleSquareClick, hs, hm, hp]

/-- Witness for C3 (amended): the e2 pawn has been dropped on e8 in a fresh
game; the drop left nothing selected, and pressing the mouse on d2 selects it
while the promotion stays pending. -/
theorem drop_clears_selection_when_promotion_becomes_pending_witness :
    MiniChess.pendingByDrop.promotionMove = some (MiniChess.e2, MiniChess.e8) ∧
    isMovable MiniChess.engine MiniChess.pendingByDrop.chess
      (MiniChess.engine.get MiniChess.pendingByDrop.chess MiniChess.d2) = true ∧
    (handlePieceDrag MiniChess.engine MiniChess.pendingByDrop MiniChess.d2).selectedSquare =
      some MiniChess.d2 ∧
    (handlePieceDrag MiniChess.engine MiniChess.pendingByDrop MiniChess.d2).promotionMove =
      some (MiniChess.e2, MiniChess.e8) :=
  ⟨by decide, by decide,
   ((drop_clears_selection_when_promotion_becomes_pending MiniChess.engine
      MiniChess.pendingByDrop).2 (MiniChess.e2, MiniChess.e8) MiniChess.d2
      (by decide) (by decide)).1⟩

/-! ## C4: input while a promotion is pending -/

/-- C4 counterexample: in a fresh game the e2 pawn is dragged onto e8, so a
promotion is pending, and the mouse is pressed on the g1 knight.  Dropping the
knight on f3 then calls the engine, which applies the move: the position
changes and the history grows while the promotion is pending. -/
theorem move_made_while_promotion_pending :
    Reachable MiniChess.engine
      (run MiniChess.engine MiniChess.pendingByDrop [InputEvent.dragStarted MiniChess.g1]) ∧
    (run MiniChess.engine MiniChess.pendingByDrop
      [InputEvent.dragStarted MiniChess.g1]).promotionMove =
      some (MiniChess.e2, MiniChess.e8) ∧
    moveCalls (step MiniChess.engine
        (run MiniChess.engine MiniChess.pendingByDrop [InputEvent.dragStarted MiniChess.g1])
        (InputEvent.dropped MiniChess.g1 MiniChess.f3)).trace =
      moveCalls (run MiniChess.engine MiniChess.pendingByDrop
        [InputEvent.dragStarted MiniChess.g1]).trace ++
        [({ from_ := MiniChess.g1, to_ := MiniChess.f3, promotion := none }, true)] ∧
    (step MiniChess.engine
        (run MiniChess.engine MiniChess.pendingByDrop [InputEvent.dragStarted MiniChess.g1])
        (InputEvent.dropped MiniChess.g1 MiniChess.f3)).chess ≠
      (run MiniChess.engine MiniChess.pendingByDrop
        [InputEvent.dragStarted MiniChess.g1]).chess ∧
    (step MiniChess.engine
        (run MiniChess.engine MiniChess.pendingByDrop [InputEvent.dragStarted MiniChess.g1])
        (InputEvent.dropped MiniChess.g1 MiniChess.f3)).moveHistory ≠
      (run MiniChess.engine MiniChess.pendingByDrop
        [InputEvent.dragStarted MiniChess.g1]).moveHistory :=
  ⟨reachable_run _ _ (reachable_run _ _ (Reachable.afterReset _) _) _,
   by decide, by decide, by decide, by decide⟩

/-- C4 (amended): while a promotion is pending the handler treats
`squareClicked`, `dragStarted` and `dropped` as it does otherwise.  No engine
`move` call is made, and position and history are unchanged, by
`dragStarted`, by `squareClicked` when nothing is selected or when a pawn is
selected and the clicked square is on rank 1 or 8, and by `dropped` of a pawn
onto rank 1 or 8.  In the remaining cases `squareClicked` and `dropped` make
exactly one `move` call, for (selected, clicked) and (from, to), and position
and history change exactly when the engine applies it. -/
theorem input_while_promotion_pending {Pos : Type} (E : Engine Pos) (h : ChessHandler Pos)
    (_hp : h.promotionMove.isSome = true) :
    (∀ sq : Square,
      moveCalls (handlePieceDrag E h sq).trace = moveCalls h.trace ∧
      (handlePieceDrag E h sq).chess = h.chess ∧
      (handlePieceDrag E h sq).moveHistory = h.moveHistory) ∧
    (∀ sq : Square,
      (h.selectedSquare = none ∨
        ∃ s, h.selectedSquare = some s ∧ isPawn (E.get h.chess s) = true ∧
          onEdgeRank sq = true) →
      moveCalls (handleSquareClick E h sq).trace = moveCalls h.trace ∧
      (handleSquareClick E h sq).chess = h.chess ∧
      (handleSquareClick E h sq).moveHistory = h.moveHistory) ∧
    (∀ a b : Square, isPawn (E.get h.chess a) = true → onEdgeRank b = true →
      moveCalls (handleDragDrop E h a b).trace = moveCalls h.trace ∧
      (handleDragDrop E h a b).chess = h.chess ∧
      (handleDragDrop E h a b).moveHistory = h.moveHistory) ∧
    (∀ s sq : Square, h.selectedSquare = some s →
      ¬ (isPawn (E.get h.chess s) = true ∧ onEdgeRank sq = true) →
      moveCalls (handleSquareClick E h sq).trace =
        moveCalls h.trace ++
          [({ from_ := s, to_ := sq, promotion := none },
            ! isRejected E h.chess { from_ := s, to_ := sq, promotion := none })] ∧
      (isRejected E h.chess { from_ := s, to_ := sq, promotion := none } = true →
        (handleSquareClick E h sq).chess = h.chess ∧
        (handleSquareClick E h sq).moveHistory = h.moveHistory) ∧
      (∀ mv pos1, E.move h.chess { from_ := s, to_ := sq, promotion := none } =
          Except.ok (some (mv, pos1)) →
        (handleSquareClick E h sq).chess = pos1 ∧
        (handleSquareClick E h sq).moveHistory = h.moveHistory ++ [mv])) ∧
    (∀ a b : Square, ¬ (isPawn (E.get h.chess a) = true ∧ onEdgeRank b = true) →
      moveCalls (handleDragDrop E h a b).trace =
        moveCalls h.trace ++
          [({ from_ := a, to_ := b, promotion := none },
            ! isRejected E h.chess { from_ := a, to_ := b, promotion := none })] ∧
      (isRejected E h.chess { from_ := a, to_ := b, promotion := none } = true →
        (handleDragDrop E h a b).chess = h.chess ∧
        (handleDragDrop E h a b).moveHistory = h.moveHistory) ∧
      (∀ mv pos1, E.move h.chess { from_ := a, to_ := b, promotion := none } =
          Except.ok (some (mv, pos1)) →
        (handleDragDrop E h a b).chess = pos1 ∧
        (handleDragDrop E h a b).moveHistory = h.moveHistory ++ [mv])) := by
  refine ⟨fun sq => ?_, fun sq hc => ?_, fun a b h1 h2 => ?_, fun s sq hs hnp => ?_,
    fun a b hnp => ?_⟩
  · unfold handlePieceDrag
    dsimp only
    split
    · exact ⟨update_moveCalls E _, rfl, rfl⟩
    · exact ⟨rfl, rfl, rfl⟩
  · rcases hc with hs | ⟨s, hs, h1, h2⟩
    · simp only [handleSquareClick, hs]
      split
      · exact ⟨update_moveCalls E _, rfl, rfl⟩
      · exact ⟨update_moveCalls E _, rfl, rfl⟩
    · simp only [handleSquareClick, hs, h1, h2, Bool.and_self, if_true]
      refine ⟨?_, rfl, rfl⟩
      rw [update_moveCalls, update_moveCalls]
  · simp only [handleDragDrop, h1, h2, Bool.and_self, if_true]
    exact ⟨update_moveCalls E _, rfl, rfl⟩
  · have hb : (isPawn (E.get h.chess s) && onEdgeRank sq) = false := by
      simpa using hnp
    simp only [handleSquareClick, hs, hb, Bool.false_eq_true, if_false]
    refine ⟨?_, fun hr => ?_, fun mv pos1 hm => ?_⟩
    · rw [update_moveCalls]
      exact makeMove_moveCalls E h s sq none
    · obtain ⟨r1, r2, _⟩ := makeMove_rejected E h s sq none hr
      exact ⟨r1, r2⟩
    · obtain ⟨r1, r2, _⟩ := makeMove_applied E h s sq none hm
      exact ⟨r1, r2⟩
  · have hb : (isPawn (E.get h.chess a) && onEdgeRank b) = false := by
      simpa using hnp
    simp only [handleDragDrop, hb, Bool.false_eq_true, if_false]
    refine ⟨?_, fun hr => ?_, fun mv pos1 hm => ?_⟩
    · rw [update_moveCalls]
      exact makeMove_moveCalls E h a b none
    · obtain ⟨r1, r2, _⟩ := makeMove_rejected E h a b none hr
      exact ⟨r1, r2⟩
    · obtain ⟨r1, r2, _⟩ := makeMove_applied E h a b none hm
      exact ⟨r1, r2⟩

/-- Witness for C4 (amended): with the promotion (e2, e8) pending in a fresh
game, pressing the mouse on g1 calls no move and changes neither position nor
history. -/
theorem input_while_promotion_pending_witness :
    MiniChess.pendingByDrop.promotionMove.isSome = true ∧
    (moveCalls (handlePieceDrag MiniChess.engine MiniChess.pendingByDrop MiniChess.g1).trace =
        moveCalls MiniChess.pendingByDrop.trace ∧
      (handlePieceDrag MiniChess.engine MiniChess.pendingByDrop MiniChess.g1).chess =
        MiniChess.pendingByDrop.chess ∧
      (handlePieceDrag MiniChess.engine MiniChess.pendingByDrop MiniChess.g1).moveHistory =
        MiniChess.pendingByDrop.moveHistory) :=
  ⟨by decide,
   (input_while_promotion_pending MiniChess.engine MiniChess.pendingByDrop (by decide)).1
     MiniChess.g1⟩

/-! ## C5: a pawn click on the last rank only records the promotion -/

/-- C5: with a pawn on the selected square `s`, a click on a square `sq` of
rank 1 or 8 that is a legal destination of `s` records
`promotionMove = (s, sq)`, makes no engine `move` call and leaves the
position, `moveHistory` and `lastMove` unchanged. -/
theorem click_on_last_rank_records_promotion {Pos : Type} (E : Engine Pos)
    (h : ChessHandler Pos) (s sq : Square) (c : Color)
    (hsel : h.selectedSquare = some s)
    (hpawn : E.get h.chess s = some { type := PieceSymbol.p, color := c })
    (hrank : sq.rank = '8' ∨ sq.rank = '1')
    (_hlegal : sq ∈ (E.moves h.chess s).map (fun m => m.to_)) :
    (handleSquareClick E h sq).promotionMove = some (s, sq) ∧
    moveCalls (handleSquareClick E h sq).trace = moveCalls h.trace ∧
    (handleSquareClick E h sq).chess = h.chess ∧
    (handleSquareClick E h sq).moveHistory = h.moveHistory ∧
    (handleSquareClick E h sq).lastMove = h.lastMove := by
  have h1 : isPawn (E.get h.chess s) = true := by simp [isPawn, hpawn]
  have h2 : onEdgeRank sq = true := by
    rcases hrank with hr | hr <;> simp [onEdgeRank, hr]
  simp only [handleSquareClick, hsel, h1, h2, Bool.and_self, if_true]
  refine ⟨rfl, ?_, rfl, rfl, rfl⟩
  rw [update_moveCalls, update_moveCalls]

/-- Witness for C5: white pawn on e7 selected, e8 empty and clicked. -/
theorem click_on_last_rank_records_promotion_witness :
    MiniChess.seventhSelected.selectedSquare = some MiniChess.e7 ∧
    MiniChess.engine.get MiniChess.seventhSelected.chess MiniChess.e7 =
      some { type := PieceSymbol.p, color := Color.w } ∧
    (MiniChess.e8.rank = '8' ∨ MiniChess.e8.rank = '1') ∧
    MiniChess.e8 ∈
      (MiniChess.engine.moves MiniChess.seventhSelected.chess MiniChess.e7).map
        (fun m => m.to_) ∧
    (handleSquareClick MiniChess.engine MiniChess.seventhSelected MiniChess.e8).promotionMove =
      some (MiniChess.e7, MiniChess.e8) ∧
    moveCalls (handleSquareClick MiniChess.engine MiniChess.seventhSelected MiniChess.e8).trace =
      moveCalls MiniChess.seventhSelected.trace ∧
    (handleSquareClick MiniChess.engine MiniChess.seventhSelected MiniChess.e8).chess =
      MiniChess.seventhSelected.chess ∧
    (handleSquareClick MiniChess.engine MiniChess.seventhSelected MiniChess.e8).moveHistory =
      MiniChess.seventhSelected.moveHistory ∧
    (handleSquareClick MiniChess.engine MiniChess.seventhSelected MiniChess.e8).lastMove =
      MiniChess.seventhSelected.lastMove :=
  ⟨by decide, by decide, by decide, by decide,
   click_on_last_rank_records_promotion MiniChess.engine MiniChess.seventhSelected
     MiniChess.e7 MiniChess.e8 Color.w (by decide) (by decide) (by decide) (by decide)⟩

/-! ## C6: a click on a legal destination commits the move -/

/-- C6: with `s` selected, a click on a legal destination `d` of `s` that is
not a pawn move to rank 1 or 8, which the engine applies with record `mv`,
leaves `moveHistory` equal to the old history with `mv` appended,
`lastMove = (s, d)`, `selectedSquare` unset and `validMoves` empty. -/
theorem click_on_destination_commits {Pos : Type} (E : Engine Pos) (hE : E.Lawful)
    (h : ChessHandler Pos) (s d : Square) (mv : Move) (pos1 : Pos)
    (hsel : h.selectedSquare = some s)
    (_hlegal : d ∈ (E.moves h.chess s).map (fun m => m.to_))
    (hnp : ¬ (isPawn (E.get h.chess s) = true ∧ onEdgeRank d = true))
    (happ : E.move h.chess { from_ := s, to_ := d, promotion := none } =
      Except.ok (some (mv, pos1))) :
    (handleSquareClick E h d).moveHistory = h.moveHistory ++ [mv] ∧
    (handleSquareClick E h d).lastMove = some (s, d) ∧
    (handleSquareClick E h d).selectedSquare = none ∧
    (handleSquareClick E h d).validMoves = [] := by
  have hb : (isPawn (E.get h.chess s) && onEdgeRank d) = false := by
    simpa using hnp
  obtain ⟨_, r2, r3⟩ := makeMove_applied E h s d none happ
  obtain ⟨e1, e2⟩ := hE.move_echo _ _ _ _ happ
  simp only [handleSquareClick, hsel, hb, Bool.false_eq_true, if_false]
  refine ⟨r2, ?_, rfl, rfl⟩
  show (makeMove E h s d none).lastMove = some (s, d)
  rw [r3, e1, e2]

/-- Witness for C6: e2 selected in a fresh game, e4 clicked. -/
theorem click_on_destination_commits_witness :
    MiniChess.engine.Lawful ∧
    MiniChess.pawnSelected.selectedSquare = some MiniChess.e2 ∧
    MiniChess.e4 ∈
      (MiniChess.engine.moves MiniChess.pawnSelected.chess MiniChess.e2).map (fun m => m.to_) ∧
    ¬ (isPawn (MiniChess.engine.get MiniChess.pawnSelected.chess MiniChess.e2) = true ∧
        onEdgeRank MiniChess.e4 = true) ∧
    (handleSquareClick MiniChess.engine MiniChess.pawnSelected MiniChess.e4).moveHistory =
      MiniChess.pawnSelected.moveHistory ++
        [MiniChess.record MiniChess.start.pieces { type := PieceSymbol.p, color := Color.w }
          MiniChess.e2 MiniChess.e4 none] ∧
    (handleSquareClick MiniChess.engine MiniChess.pawnSelected MiniChess.e4).lastMove =
      some (MiniChess.e2, MiniChess.e4) ∧
    (handleSquareClick MiniChess.engine MiniChess.pawnSelected MiniChess.e4).selectedSquare =
      none ∧
    (handleSquareClick MiniChess.engine MiniChess.pawnSelected MiniChess.e4).validMoves = [] :=
  ⟨MiniChess.engine_lawful, by decide, by decide, by decide,
   click_on_destination_commits MiniChess.engine MiniChess.engine_lawful
     MiniChess.pawnSelected MiniChess.e2 MiniChess.e4
     (MiniChess.record MiniChess.start.pieces { type := PieceSymbol.p, color := Color.w }
       MiniChess.e2 MiniChess.e4 none)
     (MiniChess.applyMove MiniChess.start
       (MiniChess.record MiniChess.start.pieces { type := PieceSymbol.p, color := Color.w }
         MiniChess.e2 MiniChess.e4 none))
     (by decide) (by decide) (by decide) (by rfl)⟩

/-! ## C7: choosing the promotion piece -/

/-- C7: with `promotionMove = (f, t)`, `promotionChosen(piece)` makes exactly
one engine `move` call, for from `f`, to `t` and that promotion piece; when
the engine applies it with record `mv`, `moveHistory` is the old history with
`mv` appended and `lastMove = (f, t)`; `promotionMove` is unset afterwards. -/
theorem promotion_choice_calls_engine_once {Pos : Type} (E : Engine Pos) (hE : E.Lawful)
    (h : ChessHandler Pos) (f t : Square) (piece : PieceSymbol)
    (hp : h.promotionMove = some (f, t)) :
    (moveCalls (handlePromotion E h piece).trace).map Prod.fst =
      (moveCalls h.trace).map Prod.fst ++
        [{ from_ := f, to_ := t, promotion := some piece }] ∧
    (∀ mv pos1, E.move h.chess { from_ := f, to_ := t, promotion := some piece } =
        Except.ok (some (mv, pos1)) →
      (handlePromotion E h piece).moveHistory = h.moveHistory ++ [mv] ∧
      (handlePromotion E h piece).moveHistory.length = h.moveHistory.length + 1 ∧
      (handlePromotion E h piece).lastMove = some (f, t)) ∧
    (handlePromotion E h piece).promotionMove = none := by
  simp only [handlePromotion, hp]
  refine ⟨?_, fun mv pos1 hm => ?_, rfl⟩
  · rw [update_moveCalls]
    show (moveCalls (makeMove E h f t (some piece)).trace).map Prod.fst = _
    rw [makeMove_moveCalls]
    simp
  · obtain ⟨_, r2, r3⟩ := makeMove_applied E h f t (some piece) hm
    obtain ⟨e1, e2⟩ := hE.move_echo _ _ _ _ hm
    refine ⟨r2, ?_, ?_⟩
    · show (makeMove E h f t (some piece)).moveHistory.length = _
      rw [r2]; simp
    · show (makeMove E h f t (some piece)).lastMove = some (f, t)
      rw [r3, e1, e2]

/-- Witness for C7: the promotion (e7, e8) is pending and a queen is chosen;
the engine applies the move. -/
theorem promotion_choice_calls_engine_once_witness :
    MiniChess.engine.Lawful ∧
    MiniChess.seventhPending.promotionMove = some (MiniChess.e7, MiniChess.e8) ∧
    (moveCalls (handlePromotion MiniChess.engine MiniChess.seventhPending
        PieceSymbol.q).trace).map Prod.fst =
      (moveCalls MiniChess.seventhPending.trace).map Prod.fst ++
        [{ from_ := MiniChess.e7, to_ := MiniChess.e8, promotion := some PieceSymbol.q }] ∧
    (handlePromotion MiniChess.engine MiniChess.seventhPending PieceSymbol.q).promotionMove =
      none ∧
    (handlePromotion MiniChess.engine MiniChess.seventhPending
      PieceSymbol.q).moveHistory.length = 1 ∧
    MiniChess.engine.get
      (handlePromotion MiniChess.engine MiniChess.seventhPending PieceSymbol.q).chess
      MiniChess.e8 = some { type := PieceSymbol.q, color := Color.w } :=
  ⟨MiniChess.engine_lawful, by decide,
   (promotion_choice_calls_engine_once MiniChess.engine MiniChess.engine_lawful
     MiniChess.seventhPending MiniChess.e7 MiniChess.e8 PieceSymbol.q (by decide)).1,
   (promotion_choice_calls_engine_once MiniChess.engine MiniChess.engine_lawful
     MiniChess.seventhPending MiniChess.e7 MiniChess.e8 PieceSymbol.q (by decide)).2.2,
   by decide, by decide⟩

/-! ## C8: a rejected move attempt -/

/-- C8 counterexample, two rejected calls in a fresh game in which the e2
pawn has been dragged onto e8, so that a promotion is pending for (e2, e8).
First: the pawn is dragged to e5, which the engine rejects; the promotion is
still pending afterwards.  Second: the mouse is pressed on the d2 pawn and a
queen is chosen; the engine rejects e2-e8 and d2 is still selected
afterwards.  Neither session ends in Idle. -/
theorem rejected_move_does_not_end_in_idle :
    (Reachable MiniChess.engine
        (run MiniChess.engine MiniChess.pendingByDrop [InputEvent.dragStarted MiniChess.e2]) ∧
      moveCalls (step MiniChess.engine
          (run MiniChess.engine MiniChess.pendingByDrop [InputEvent.dragStarted MiniChess.e2])
          (InputEvent.dropped MiniChess.e2 MiniChess.e5)).trace =
        moveCalls (run MiniChess.engine MiniChess.pendingByDrop
          [InputEvent.dragStarted MiniChess.e2]).trace ++
          [({ from_ := MiniChess.e2, to_ := MiniChess.e5, promotion := none }, false)] ∧
      (step MiniChess.engine
          (run MiniChess.engine MiniChess.pendingByDrop [InputEvent.dragStarted MiniChess.e2])
          (InputEvent.dropped MiniChess.e2 MiniChess.e5)).promotionMove =
        some (MiniChess.e2, MiniChess.e8)) ∧
    (Reachable MiniChess.engine
        (run MiniChess.engine MiniChess.pendingByDrop [InputEvent.dragStarted MiniChess.d2]) ∧
      moveCalls (step MiniChess.engine
          (run MiniChess.engine MiniChess.pendingByDrop [InputEvent.dragStarted MiniChess.d2])
          (InputEvent.promotionChosen PieceSymbol.q)).trace =
        moveCalls (run MiniChess.engine MiniChess.pendingByDrop
          [InputEvent.dragStarted MiniChess.d2]).trace ++
          [({ from_ := MiniChess.e2, to_ := MiniChess.e8, promotion := some PieceSymbol.q },
            false)] ∧
      (step MiniChess.engine
          (run MiniChess.engine MiniChess.pendingByDrop [InputEvent.dragStarted MiniChess.d2])
          (InputEvent.promotionChosen PieceSymbol.q)).selectedSquare =
        some MiniChess.d2) :=
  ⟨⟨reachable_run _ _ (reachable_run _ _ (Reachable.afterReset _) _) _, by decide, by decide⟩,
   reachable_run _ _ (reachable_run _ _ (Reachable.afterReset _) _) _, by decide, by decide⟩

/-- C8 (amended): when the one engine `move` call an event makes is rejected
(`req` is logged as not applied), the handler still returns a state: the
position, `moveHistory` and `lastMove` are unchanged, and an error the engine
threw has been caught and logged.  The event is a `squareClicked`, a `dropped`
or a `promotionChosen`.  After the first two `selectedSquare` is unset,
`validMoves` is empty and `promotionMove` is what it was before the event;
after the third `promotionMove` is unset, and the selection is unset and the
destinations empty when they were so before the event. -/
theorem rejected_move_changes_no_game_state {Pos : Type} (E : Engine Pos)
    (h : ChessHandler Pos) (ev : InputEvent) (req : MoveRequest)
    (hrej : moveCalls (step E h ev).trace = moveCalls h.trace ++ [(req, false)]) :
    (step E h ev).chess = h.chess ∧
    (step E h ev).moveHistory = h.moveHistory ∧
    (step E h ev).lastMove = h.lastMove ∧
    (∀ message, E.move h.chess req = Except.error message →
      errorsLogged (step E h ev).trace = errorsLogged h.trace ++ [message]) ∧
    (match ev with
    | InputEvent.squareClicked _ =>
      (step E h ev).selectedSquare = none ∧ (step E h ev).validMoves = [] ∧
        (step E h ev).promotionMove = h.promotionMove
    | InputEvent.dropped _ _ =>
      (step E h ev).selectedSquare = none ∧ (step E h ev).validMoves = [] ∧
        (step E h ev).promotionMove = h.promotionMove
    | InputEvent.promotionChosen _ =>
      (step E h ev).promotionMove = none ∧
        (h.selectedSquare = none → (step E h ev).selectedSquare = none) ∧
        (h.validMoves = [] → (step E h ev).validMoves = [])
    | InputEvent.dragStarted _ => False
    | InputEvent.reset => False) := by
  cases ev with
  | squareClicked sq =>
    simp only [step, handleSquareClick] at hrej ⊢
    split at hrej
    · rename_i s hsel
      split at hrej
      · simp [update_moveCalls] at hrej
      · rename_i hnp
        rw [update_moveCalls, makeMove_moveCalls] at hrej
        obtain ⟨hreq, hr⟩ := rejected_of_moveCalls E h hrej
        obtain ⟨r1, r2, r3⟩ := makeMove_rejected E h s sq none hr
        subst hreq
        simp only [hsel, hnp, Bool.false_eq_true, if_false]
        refine ⟨r1, r2, r3, fun message hm => ?_, rfl, rfl, ?_⟩
        · rw [update_errorsLogged]
          exact makeMove_thrown E h s sq none message hm
        · exact makeMove_promotionMove E h s sq none
    · split at hrej <;> simp [update_moveCalls] at hrej
  | dragStarted sq =>
    simp only [step, handlePieceDrag] at hrej ⊢
    split at hrej <;> simp [update_moveCalls] at hrej
  | dropped a b =>
    simp only [step, handleDragDrop] at hrej ⊢
    split at hrej
    · simp [update_moveCalls] at hrej
    · rename_i hnp
      rw [update_moveCalls] at hrej
      have hrej2 : moveCalls (makeMove E h a b none).trace =
          moveCalls h.trace ++ [(req, false)] := hrej
      rw [makeMove_moveCalls] at hrej2
      obtain ⟨hreq, hr⟩ := rejected_of_moveCalls E h hrej2
      obtain ⟨r1, r2, r3⟩ := makeMove_rejected E h a b none hr
      subst hreq
      simp only [hnp, Bool.false_eq_true, if_false]
      refine ⟨r1, r2, r3, fun message hm => ?_, rfl, rfl, ?_⟩
      · rw [update_errorsLogged]
        exact makeMove_thrown E h a b none message hm
      · exact makeMove_promotionMove E h a b none
  | promotionChosen pc =>
    simp only [step, handlePromotion] at hrej ⊢
    split at hrej
    · rename_i a b hp
      rw [update_moveCalls] at hrej
      have hrej2 : moveCalls (makeMove E h a b (some pc)).trace =
          moveCalls h.trace ++ [(req, false)] := hrej
      rw [makeMove_moveCalls] at hrej2
      obtain ⟨hreq, hr⟩ := rejected_of_moveCalls E h hrej2
      obtain ⟨r1, r2, r3⟩ := makeMove_rejected E h a b (some pc) hr
      subst hreq
      refine ⟨r1, r2, r3, fun message hm => ?_, rfl, fun hs => ?_, fun hv => ?_⟩
      · rw [update_errorsLogged]
        exact makeMove_thrown E h a b (some pc) message hm
      · exact (makeMove_selectedSquare E h a b (some pc)).trans hs
      · exact (makeMove_validMoves E h a b (some pc)).trans hv
    · simp at hrej
  | reset =>
    simp only [step, reset, update_moveCalls] at hrej
    have hl := congrArg List.length hrej
    simp [moveCalls_append] at hl

/-- Witness for C8 (amended): e2 is selected in a fresh game and e5 is
clicked; the engine rejects e2-e5. -/
theorem rejected_move_changes_no_game_state_witness :
    moveCalls (step MiniChess.engine MiniChess.pawnSelected
        (InputEvent.squareClicked MiniChess.e5)).trace =
      moveCalls MiniChess.pawnSelected.trace ++
        [({ from_ := MiniChess.e2, to_ := MiniChess.e5, promotion := none }, false)] ∧
    (step MiniChess.engine MiniChess.pawnSelected
        (InputEvent.squareClicked MiniChess.e5)).chess = MiniChess.pawnSelected.chess ∧
    (step MiniChess.engine MiniChess.pawnSelected
        (InputEvent.squareClicked MiniChess.e5)).moveHistory =
      MiniChess.pawnSelected.moveHistory ∧
    (step MiniChess.engine MiniChess.pawnSelected
        (InputEvent.squareClicked MiniChess.e5)).lastMove = MiniChess.pawnSelected.lastMove ∧
    ((step MiniChess.engine MiniChess.pawnSelected
        (InputEvent.squareClicked MiniChess.e5)).selectedSquare = none ∧
      (step MiniChess.engine MiniChess.pawnSelected
        (InputEvent.squareClicked MiniChess.e5)).validMoves = [] ∧
      (step MiniChess.engine MiniChess.pawnSelected
        (InputEvent.squareClicked MiniChess.e5)).promotionMove =
        MiniChess.pawnSelected.promotionMove) :=
  ⟨by decide,
   (rejected_move_changes_no_game_state MiniChess.engine MiniChess.pawnSelected
     (InputEvent.squareClicked MiniChess.e5)
     { from_ := MiniChess.e2, to_ := MiniChess.e5, promotion := none } (by decide)).1,
   (rejected_move_changes_no_game_state MiniChess.engine MiniChess.pawnSelected
     (InputEvent.squareClicked MiniChess.e5)
     { from_ := MiniChess.e2, to_ := MiniChess.e5, promotion := none } (by decide)).2.1,
   (rejected_move_changes_no_game_state MiniChess.engine MiniChess.pawnSelected
     (InputEvent.squareClicked MiniChess.e5)
     { from_ := MiniChess.e2, to_ := MiniChess.e5, promotion := none } (by decide)).2.2.1,
   (rejected_move_changes_no_game_state MiniChess.engine MiniChess.pawnSelected
     (InputEvent.squareClicked MiniChess.e5)
     { from_ := MiniChess.e2, to_ := MiniChess.e5, promotion := none } (by decide)).2.2.2.2⟩

/-! ## C9: clicking another own piece while one is selected -/

/-- C9 counterexample: e2 is selected in a fresh game and d2 is clicked.  The
square d2 is not a legal destination of e2 and holds a pawn of the side to
move, yet after the click nothing is selected. -/
theorem click_on_own_piece_deselects :
    MiniChess.pawnSelected.selectedSquare = some MiniChess.e2 ∧
    MiniChess.d2 ∉
      (MiniChess.engine.moves MiniChess.pawnSelected.chess MiniChess.e2).map (fun m => m.to_) ∧
    isMovable MiniChess.engine MiniChess.pawnSelected.chess
      (MiniChess.engine.get MiniChess.pawnSelected.chess MiniChess.d2) = true ∧
    (handleSquareClick MiniChess.engine MiniChess.pawnSelected MiniChess.d2).selectedSquare ≠
      some MiniChess.d2 ∧
    (handleSquareClick MiniChess.engine MiniChess.pawnSelected MiniChess.d2).selectedSquare =
      none := by
  decide

/-- C9 (amended): with `s` selected, a click on a square `sq` that is `s`
itself or no legal destination of `s` and that holds a piece of the side to
move does not move the selection to `sq`: unless `s` holds a pawn and `sq` is
on rank 1 or 8, the handler makes the engine `move` call for (s, sq) and then
leaves `selectedSquare` unset and `validMoves` empty. -/
theorem click_on_own_piece_clears_selection {Pos : Type} (E : Engine Pos)
    (h : ChessHandler Pos) (s sq : Square)
    (hsel : h.selectedSquare = some s)
    (_hnot : sq = s ∨ sq ∉ (E.moves h.chess s).map (fun m => m.to_))
    (_hown : isMovable E h.chess (E.get h.chess sq) = true)
    (hnp : ¬ (isPawn (E.get h.chess s) = true ∧ onEdgeRank sq = true)) :
    (handleSquareClick E h sq).selectedSquare = none ∧
    (handleSquareClick E h sq).validMoves = [] ∧
    (moveCalls (handleSquareClick E h sq).trace).map Prod.fst =
      (moveCalls h.trace).map Prod.fst ++ [{ from_ := s, to_ := sq, promotion := none }] := by
  have hb : (isPawn (E.get h.chess s) && onEdgeRank sq) = false := by
    simpa using hnp
  simp only [handleSquareClick, hsel, hb, Bool.false_eq_true, if_false]
  refine ⟨rfl, rfl, ?_⟩
  rw [update_moveCalls]
  show (moveCalls (makeMove E h s sq none).trace).map Prod.fst = _
  rw [makeMove_moveCalls]
  simp

/-- Witness for C9 (amended): e2 selected in a fresh game, d2 clicked. -/
theorem click_on_own_piece_clears_selection_witness :
    MiniChess.pawnSelected.selectedSquare = some MiniChess.e2 ∧
    (MiniChess.d2 = MiniChess.e2 ∨
      MiniChess.d2 ∉
        (MiniChess.engine.moves MiniChess.pawnSelected.chess MiniChess.e2).map
          (fun m => m.to_)) ∧
    isMovable MiniChess.engine MiniChess.pawnSelected.chess
      (MiniChess.engine.get MiniChess.pawnSelected.chess MiniChess.d2) = true ∧
    ¬ (isPawn (MiniChess.engine.get MiniChess.pawnSelected.chess MiniChess.e2) = true ∧
        onEdgeRank MiniChess.d2 = true) ∧
    (handleSquareClick MiniChess.engine MiniChess.pawnSelected MiniChess.d2).selectedSquare =
      none ∧
    (handleSquareClick MiniChess.engine MiniChess.pawnSelected MiniChess.d2).validMoves = [] ∧
    (moveCalls (handleSquareClick MiniChess.engine MiniChess.pawnSelected
        MiniChess.d2).trace).map Prod.fst =
      (moveCalls MiniChess.pawnSelected.trace).map Prod.fst ++
        [{ from_ := MiniChess.e2, to_ := MiniChess.d2, promotion := none }] :=
  ⟨by decide, by decide, by decide, by decide,
   click_on_own_piece_clears_selection MiniChess.engine MiniChess.pawnSelected
     MiniChess.e2 MiniChess.d2 (by decide) (by decide) (by decide) (by decide)⟩

/-! ## C10: clicking a square that is no destination -/

/-- C10 counterexample: e2 (a pawn) is selected in a fresh game and e8 is
clicked.  The square e8 is not a legal destination of e2 and holds a piece of
the side not to move, yet after the click a promotion is pending for
(e2, e8) and e2 is still selected. -/
theorem click_on_last_rank_with_pawn_selected :
    MiniChess.pawnSelected.selectedSquare = some MiniChess.e2 ∧
    MiniChess.pawnSelected.promotionMove = none ∧
    MiniChess.e8 ∉
      (MiniChess.engine.moves MiniChess.pawnSelected.chess MiniChess.e2).map (fun m => m.to_) ∧
    isMovable MiniChess.engine MiniChess.pawnSelected.chess
      (MiniChess.engine.get MiniChess.pawnSelected.chess MiniChess.e8) = false ∧
    (handleSquareClick MiniChess.engine MiniChess.pawnSelected MiniChess.e8).promotionMove =
      some (MiniChess.e2, MiniChess.e8) ∧
    (handleSquareClick MiniChess.engine MiniChess.pawnSelected MiniChess.e8).selectedSquare =
      some MiniChess.e2 := by
  decide

/-- C10 (amended): with `s` selected, a click on a square `sq` that is no
legal destination of `s` and holds no piece of the side to move, unless `s`
holds a pawn and `sq` is on rank 1 or 8, leaves `selectedSquare` unset and
`validMoves` empty, makes no promotion pending (`promotionMove` is what it
was), and leaves the position and `moveHistory` unchanged. -/
theorem click_off_destination_deselects {Pos : Type} (E : Engine Pos) (hE : E.Lawful)
    (h : ChessHandler Pos) (s sq : Square)
    (hsel : h.selectedSquare = some s)
    (hnot : sq ∉ (E.moves h.chess s).map (fun m => m.to_))
    (_hother : isMovable E h.chess (E.get h.chess sq) = false)
    (hnp : ¬ (isPawn (E.get h.chess s) = true ∧ onEdgeRank sq = true)) :
    (handleSquareClick E h sq).selectedSquare = none ∧
    (handleSquareClick E h sq).validMoves = [] ∧
    (handleSquareClick E h sq).promotionMove = h.promotionMove ∧
    (handleSquareClick E h sq).chess = h.chess ∧
    (handleSquareClick E h sq).moveHistory = h.moveHistory := by
  have hb : (isPawn (E.get h.chess s) && onEdgeRank sq) = false := by
    simpa using hnp
  have hr : isRejected E h.chess { from_ := s, to_ := sq, promotion := none } = true := by
    rcases applied_or_rejected E h.chess { from_ := s, to_ := sq, promotion := none } with
      ⟨mv, pos1, hm⟩ | hr
    · exact absurd (hE.move_legal _ _ _ _ hm) hnot
    · exact hr
  obtain ⟨r1, r2, _⟩ := makeMove_rejected E h s sq none hr
  simp only [handleSquareClick, hsel, hb, Bool.false_eq_true, if_false]
  exact ⟨rfl, rfl, makeMove_promotionMove E h s sq none, r1, r2⟩

/-- Witness for C10 (amended): e2 selected in a fresh game, the empty square
e5 clicked. -/
theorem click_off_destination_deselects_witness :
    MiniChess.engine.Lawful ∧
    MiniChess.pawnSelected.selectedSquare = some MiniChess.e2 ∧
    MiniChess.e5 ∉
      (MiniChess.engine.moves MiniChess.pawnSelected.chess MiniChess.e2).map (fun m => m.to_) ∧
    isMovable MiniChess.engine MiniChess.pawnSelected.chess
      (MiniChess.engine.get MiniChess.pawnSelected.chess MiniChess.e5) = false ∧
    ¬ (isPawn (MiniChess.engine.get MiniChess.pawnSelected.chess MiniChess.e2) = true ∧
        onEdgeRank MiniChess.e5 = true) ∧
    (handleSquareClick MiniChess.engine MiniChess.pawnSelected MiniChess.e5).selectedSquare =
      none ∧
    (handleSquareClick MiniChess.engine MiniChess.pawnSelected MiniChess.e5).validMoves = [] ∧
    (handleSquareClick MiniChess.engine MiniChess.pawnSelected MiniChess.e5).promotionMove =
      MiniChess.pawnSelected.promotionMove ∧
    (handleSquareClick MiniChess.engine MiniChess.pawnSelected MiniChess.e5).chess =
      MiniChess.pawnSelected.chess ∧
    (handleSquareClick MiniChess.engine MiniChess.pawnSelected MiniChess.e5).moveHistory =
      MiniChess.pawnSelected.moveHistory :=
  ⟨MiniChess.engine_lawful, by decide, by decide, by decide, by decide,
   click_off_destination_deselects MiniChess.engine MiniChess.engine_lawful
     MiniChess.pawnSelected MiniChess.e2 MiniChess.e5
     (by decide) (by decide) (by decide) (by decide)⟩

/-! ## C11: a click with nothing selected -/

/-- C11: with nothing selected, a click on a square holding a piece of the
side to move sets `selectedSquare` to it and `validMoves` to the destinations
the engine lists for it; a click on an empty square or on a piece of the other
side leaves `selectedSquare` unset and `validMoves` empty; either way the
position, `moveHistory` and `lastMove` are unchanged. -/
theorem idle_click_selects_own_piece {Pos : Type} (E : Engine Pos) (h : ChessHandler Pos)
    (sq : Square) (hs : h.selectedSquare = none) :
    ((∃ pc, E.get h.chess sq = some pc ∧ pc.color = E.turn h.chess) →
      (handleSquareClick E h sq).selectedSquare = some sq ∧
      (handleSquareClick E h sq).validMoves = (E.moves h.chess sq).map (fun m => m.to_)) ∧
    ((E.get h.chess sq = none ∨
        ∃ pc, E.get h.chess sq = some pc ∧ pc.color ≠ E.turn h.chess) →
      (handleSquareClick E h sq).selectedSquare = none ∧
      (handleSquareClick E h sq).validMoves = []) ∧
    (handleSquareClick E h sq).chess = h.chess ∧
    (handleSquareClick E h sq).moveHistory = h.moveHistory ∧
    (handleSquareClick E h sq).lastMove = h.lastMove := by
  refine ⟨fun hown => ?_, fun hnot => ?_, ?_, ?_, ?_⟩
  · obtain ⟨pc, hg, hc⟩ := hown
    simp [handleSquareClick, hs, isMovable, hg, hc]
  · rcases hnot with hg | ⟨pc, hg, hc⟩
    · simp [handleSquareClick, hs, isMovable, hg]
    · simp [handleSquareClick, hs, isMovable, hg, hc]
  all_goals
    simp only [handleSquareClick, hs]
    split <;> rfl

/-- Witness for C11: in a fresh game (nothing selected) the e2 pawn is
clicked, and the empty square e4 is clicked. -/
theorem idle_click_selects_own_piece_witness :
    MiniChess.fresh.selectedSquare = none ∧
    (handleSquareClick MiniChess.engine MiniChess.fresh MiniChess.e2).selectedSquare =
      some MiniChess.e2 ∧
    (handleSquareClick MiniChess.engine MiniChess.fresh MiniChess.e2).validMoves =
      (MiniChess.engine.moves MiniChess.fresh.chess MiniChess.e2).map (fun m => m.to_) ∧
    (handleSquareClick MiniChess.engine MiniChess.fresh MiniChess.e4).selectedSquare = none ∧
    (handleSquareClick MiniChess.engine MiniChess.fresh MiniChess.e4).validMoves = [] ∧
    (handleSquareClick MiniChess.engine MiniChess.fresh MiniChess.e2).chess =
      MiniChess.fresh.chess :=
  ⟨by decide,
   ((idle_click_selects_own_piece MiniChess.engine MiniChess.fresh MiniChess.e2
      (by decide)).1 ⟨{ type := PieceSymbol.p, color := Color.w }, by decide, by decide⟩).1,
   ((idle_click_selects_own_piece MiniChess.engine MiniChess.fresh MiniChess.e2
      (by decide)).1 ⟨{ type := PieceSymbol.p, color := Color.w }, by decide, by decide⟩).2,
   ((idle_click_selects_own_piece MiniChess.engine MiniChess.fresh MiniChess.e4
      (by decide)).2.1 (Or.inl (by decide))).1,
   ((idle_click_selects_own_piece MiniChess.engine MiniChess.fresh MiniChess.e4
      (by decide)).2.1 (Or.inl (by decide))).2,
   (idle_click_selects_own_piece MiniChess.engine MiniChess.fresh MiniChess.e2
      (by decide)).2.2.1⟩

/-! ## C12: destinations and selection -/

/-- C12, the failing input: a fresh game is played 1. h4 g5 2. hxg5 h6
3. gxh6 a6 4. h7 a5 by drags; h7 is clicked (selected; its destinations are
g8 once per promotion piece), g8 is clicked (the promotion becomes pending)
and a queen is chosen.  The engine applies hxg8=Q, the ninth move.  In the
state reached h7 is still selected and `validMoves` still lists g8, while h7
is empty and the engine lists no move for it in the current position. -/
theorem destinations_stale_after_promotion :
    Reachable MiniChess.engine MiniChess.promotedByClicks ∧
    MiniChess.promotedByClicks.moveHistory.length = 9 ∧
    MiniChess.promotedByClicks.selectedSquare = some MiniChess.h7 ∧
    MiniChess.promotedByClicks.validMoves =
      [MiniChess.g8, MiniChess.g8, MiniChess.g8, MiniChess.g8] ∧
    MiniChess.engine.get MiniChess.promotedByClicks.chess MiniChess.h7 = none ∧
    (MiniChess.engine.moves MiniChess.promotedByClicks.chess MiniChess.h7).map
      (fun m => m.to_) = [] :=
  ⟨Reachable.afterEvent _ _ (reachable_run _ _ (Reachable.afterReset _) _),
   by decide, by decide, by decide, by decide, by decide⟩

/-- Where the consistency of `validMoves` with the selection does hold: in
every reachable state `validMoves` is empty when nothing is selected; the
state after `reset()` is consistent, and every input event keeps it so unless
it is a `promotionChosen` delivered while a square is selected that changes
the position; `promotionChosen` never touches `selectedSquare` or
`validMoves`. -/
theorem destinations_consistent_with_selection {Pos : Type} (E : Engine Pos) :
    (∀ h : ChessHandler Pos, Reachable E h → h.selectedSquare = none → h.validMoves = []) ∧
    (∀ h0 : ChessHandler Pos, SelectionConsistent E (reset E h0)) ∧
    (∀ (h : ChessHandler Pos) (ev : InputEvent), SelectionConsistent E h →
      ((∀ pc, ev ≠ InputEvent.promotionChosen pc) ∨ h.selectedSquare = none ∨
        (step E h ev).chess = h.chess) →
      SelectionConsistent E (step E h ev)) ∧
    (∀ (h : ChessHandler Pos) (pc : PieceSymbol),
      (handlePromotion E h pc).selectedSquare = h.selectedSquare ∧
      (handlePromotion E h pc).validMoves = h.validMoves) := by
  have hpromo : ∀ (h : ChessHandler Pos) (pc : PieceSymbol),
      (handlePromotion E h pc).selectedSquare = h.selectedSquare ∧
      (handlePromotion E h pc).validMoves = h.validMoves := by
    intro h pc
    simp only [handlePromotion]
    split
    · exact ⟨makeMove_selectedSquare E h _ _ _, makeMove_validMoves E h _ _ _⟩
    · exact ⟨rfl, rfl⟩
  refine ⟨fun h hr => ?_, fun h0 => rfl, fun h ev hc hside => ?_, hpromo⟩
  · induction hr with
    | afterReset h0 => intro _; rfl
    | afterEvent h ev _ ih =>
      cases ev with
      | squareClicked sq =>
        simp only [step, handleSquareClick]
        split
        · split
          · rename_i s hsel _
            intro hn
            exact absurd (hsel.symm.trans hn) (by simp)
          · intro _; rfl
        · split
          · intro hn
            exact absurd hn (by simp)
          · intro _; rfl
      | dragStarted sq =>
        simp only [step, handlePieceDrag]
        split
        · intro hn
          exact absurd hn (by simp)
        · exact ih
      | dropped a b => intro _; rfl
      | promotionChosen pc =>
        intro hn
        have hp := hpromo h pc
        simp only [step] at hn ⊢
        rw [hp.2]
        exact ih (hp.1.symm.trans hn)
      | reset => intro _; rfl
  · cases ev with
    | squareClicked sq =>
      simp only [step, handleSquareClick]
      split
      · split
        · exact hc
        · rfl
      · split <;> rfl
    | dragStarted sq =>
      simp only [step, handlePieceDrag]
      split
      · rfl
      · exact hc
    | dropped a b => rfl
    | promotionChosen pc =>
      have hp := hpromo h pc
      rcases hside with hno | hnone | hsame
      · exact absurd rfl (hno pc)
      · have hv : h.validMoves = [] := by
          unfold SelectionConsistent at hc
          rw [hnone] at hc
          exact hc
        unfold SelectionConsistent
        simp only [step]
        rw [hp.1, hnone]
        show (handlePromotion E h pc).validMoves = []
        rw [hp.2, hv]
      · unfold SelectionConsistent at hc ⊢
        simp only [step] at hsame ⊢
        rw [hp.1, hp.2, hsame]
        exact hc
    | reset => rfl

/-! ## C13: a drop against two clicks -/

/-- The game fields `makeMove` leaves depend only on the position, the
history and `lastMove` it starts from. -/
theorem makeMove_congr {Pos : Type} (E : Engine Pos) (h k : ChessHandler Pos) (a b : Square)
    (promo : Option PieceSymbol) (hc : k.chess = h.chess)
    (hm : k.moveHistory = h.moveHistory) (hl : k.lastMove = h.lastMove) :
    (makeMove E k a b promo).chess = (makeMove E h a b promo).chess ∧
    (makeMove E k a b promo).moveHistory = (makeMove E h a b promo).moveHistory ∧
    (makeMove E k a b promo).lastMove = (makeMove E h a b promo).lastMove := by
  rcases applied_or_rejected E h.chess { from_ := a, to_ := b, promotion := promo } with
    ⟨mv, pos1, happ⟩ | hr
  · obtain ⟨r1, r2, r3⟩ := makeMove_applied E h a b promo happ
    obtain ⟨s1, s2, s3⟩ := makeMove_applied E k a b promo (hc ▸ happ)
    rw [r1, r2, r3, s1, s2, s3, hm]
    exact ⟨rfl, rfl, rfl⟩
  · obtain ⟨r1, r2, r3⟩ := makeMove_rejected E h a b promo hr
    obtain ⟨s1, s2, s3⟩ := makeMove_rejected E k a b promo (hc ▸ hr)
    rw [r1, r2, r3, s1, s2, s3]
    exact ⟨hc, hm, hl⟩

/-- C13 counterexample: in a fresh game (nothing selected, no promotion
pending, white to move) the black pawn e7 is dragged onto e2, and the squares
e7 and e2 are clicked in turn.  The drop ends with nothing selected, the two
clicks end with e2 selected. -/
theorem drop_differs_from_two_clicks :
    MiniChess.fresh.selectedSquare = none ∧
    MiniChess.fresh.promotionMove = none ∧
    MiniChess.e7 ≠ MiniChess.e2 ∧
    (handleDragDrop MiniChess.engine MiniChess.fresh MiniChess.e7
      MiniChess.e2).selectedSquare = none ∧
    (handleSquareClick MiniChess.engine
      (handleSquareClick MiniChess.engine MiniChess.fresh MiniChess.e7)
      MiniChess.e2).selectedSquare = some MiniChess.e2 ∧
    session (handleDragDrop MiniChess.engine MiniChess.fresh MiniChess.e7 MiniChess.e2) ≠
      session (handleSquareClick MiniChess.engine
        (handleSquareClick MiniChess.engine MiniChess.fresh MiniChess.e7) MiniChess.e2) := by
  refine ⟨by decide, by decide, by decide, by decide, by decide, fun hx => ?_⟩
  have h4 := congrArg (fun t => t.2.2.2.1) hx
  revert h4
  decide

/-- C13 (amended): with nothing selected and no promotion pending, and
`a ≠ b`: unless `a` holds a pawn and `b` is on rank 1 or 8, `dropped(a, b)`
leaves the six session fields exactly as `squareClicked(a)` followed by
`squareClicked(b)` does when `a` holds a piece of the side to move, and also
when neither `a` nor `b` holds one and the engine rejects the move (a, b).
When `a` holds a pawn of the side to move and `b` is on rank 1 or 8 the two
agree on the position, `moveHistory`, `lastMove` and
`promotionMove = (a, b)`. -/
theorem drop_matches_two_clicks {Pos : Type} (E : Engine Pos) (h : ChessHandler Pos)
    (a b : Square) (hs : h.selectedSquare = none) (_hp : h.promotionMove = none)
    (_hne : a ≠ b) :
    (isMovable E h.chess (E.get h.chess a) = true →
      ¬ (isPawn (E.get h.chess a) = true ∧ onEdgeRank b = true) →
      session (handleDragDrop E h a b) =
        session (handleSquareClick E (handleSquareClick E h a) b)) ∧
    (isMovable E h.chess (E.get h.chess a) = false →
      isMovable E h.chess (E.get h.chess b) = false →
      ¬ (isPawn (E.get h.chess a) = true ∧ onEdgeRank b = true) →
      isRejected E h.chess { from_ := a, to_ := b, promotion := none } = true →
      session (handleDragDrop E h a b) =
        session (handleSquareClick E (handleSquareClick E h a) b)) ∧
    (isMovable E h.chess (E.get h.chess a) = true →
      isPawn (E.get h.chess a) = true → onEdgeRank b = true →
      (handleDragDrop E h a b).chess =
        (handleSquareClick E (handleSquareClick E h a) b).chess ∧
      (handleDragDrop E h a b).moveHistory =
        (handleSquareClick E (handleSquareClick E h a) b).moveHistory ∧
      (handleDragDrop E h a b).lastMove =
        (handleSquareClick E (handleSquareClick E h a) b).lastMove ∧
      (handleDragDrop E h a b).promotionMove = some (a, b) ∧
      (handleSquareClick E (handleSquareClick E h a) b).promotionMove = some (a, b)) := by
  refine ⟨fun hown hnp => ?_, fun hna hnb hnp hrej => ?_, fun hown h1 h2 => ?_⟩
  · have hb : (isPawn (E.get h.chess a) && onEdgeRank b) = false := by
      simpa using hnp
    have hk := makeMove_congr E h
      (update E { h with
        selectedSquare := some a
        validMoves := (E.moves h.chess a).map (fun m => m.to_) }) a b none rfl rfl rfl
    simp only [session, handleDragDrop, handleSquareClick, hs, hown, hb, if_true,
      Bool.false_eq_true, if_false, update_chess, update_selectedSquare, update_validMoves,
      update_promotionMove, update_moveHistory, update_lastMove, makeMove_promotionMove]
    rw [hk.1, hk.2.1, hk.2.2]
  · have hb : (isPawn (E.get h.chess a) && onEdgeRank b) = false := by
      simpa using hnp
    obtain ⟨r1, r2, r3⟩ := makeMove_rejected E h a b none hrej
    simp only [session, handleDragDrop, handleSquareClick, hs, hna, hnb, hb,
      Bool.false_eq_true, if_false, update_chess, update_selectedSquare, update_validMoves,
      update_promotionMove, update_moveHistory, update_lastMove, makeMove_promotionMove]
    rw [r1, r2, r3]
  · simp [handleDragDrop, handleSquareClick, hs, hown, h1, h2]

/-- Witness for C13 (amended): in a fresh game, dragging the e2 pawn to e4
and clicking e2 then e4 leave the same session. -/
theorem drop_matches_two_clicks_witness :
    MiniChess.fresh.selectedSquare = none ∧
    MiniChess.fresh.promotionMove = none ∧
    MiniChess.e2 ≠ MiniChess.e4 ∧
    session (handleDragDrop MiniChess.engine MiniChess.fresh MiniChess.e2 MiniChess.e4) =
      session (handleSquareClick MiniChess.engine
        (handleSquareClick MiniChess.engine MiniChess.fresh MiniChess.e2) MiniChess.e4) ∧
    (handleDragDrop MiniChess.engine MiniChess.fresh MiniChess.e2
      MiniChess.e4).moveHistory.length = 1 :=
  ⟨by decide, by decide, by decide,
   (drop_matches_two_clicks MiniChess.engine MiniChess.fresh MiniChess.e2 MiniChess.e4
     (by decide) (by decide) (by decide)).1 (by decide) (by decide),
   by decide⟩

/-! ## C14: the start of a drag -/

/-- C14: `dragStarted(sq)` on an empty square or on a piece of the side not
to move returns the handler unchanged in every field; on a piece of the side
to move it sets `selectedSquare` to `sq` and `validMoves` to the destinations
the engine lists for `sq`, and the position, `moveHistory`, `lastMove` and
`promotionMove` are untouched. -/
theorem drag_start_only_selects {Pos : Type} (E : Engine Pos) (h : ChessHandler Pos)
    (sq : Square) :
    ((E.get h.chess sq = none ∨
        ∃ pc, E.get h.chess sq = some pc ∧ pc.color ≠ E.turn h.chess) →
      handlePieceDrag E h sq = h) ∧
    ((∃ pc, E.get h.chess sq = some pc ∧ pc.color = E.turn h.chess) →
      (handlePieceDrag E h sq).selectedSquare = some sq ∧
      (handlePieceDrag E h sq).validMoves = (E.moves h.chess sq).map (fun m => m.to_) ∧
      (handlePieceDrag E h sq).chess = h.chess ∧
      (handlePieceDrag E h sq).moveHistory = h.moveHistory ∧
      (handlePieceDrag E h sq).lastMove = h.lastMove ∧
      (handlePieceDrag E h sq).promotionMove = h.promotionMove) := by
  refine ⟨fun hnot => ?_, fun hown => ?_⟩
  · rcases hnot with hg | ⟨pc, hg, hc⟩
    · simp [handlePieceDrag, isMovable, hg]
    · simp [handlePieceDrag, isMovable, hg, hc]
  · obtain ⟨pc, hg, hc⟩ := hown
    simp [handlePieceDrag, isMovable, hg, hc]

/-- Witness for C14: in a fresh game with the e2 pawn selected, the mouse is
pressed on the black pawn e7 (nothing changes) and on the white pawn d2. -/
theorem drag_start_only_selects_witness :
    handlePieceDrag MiniChess.engine MiniChess.pawnSelected MiniChess.e7 =
      MiniChess.pawnSelected ∧
    (handlePieceDrag MiniChess.engine MiniChess.pawnSelected MiniChess.d2).selectedSquare =
      some MiniChess.d2 :=
  ⟨(drag_start_only_selects MiniChess.engine MiniChess.pawnSelected MiniChess.e7).1
     (Or.inr ⟨{ type := PieceSymbol.p, color := Color.b }, by decide, by decide⟩),
   ((drag_start_only_selects MiniChess.engine MiniChess.pawnSelected MiniChess.d2).2
     ⟨{ type := PieceSymbol.p, color := Color.w }, by decide, by decide⟩).1⟩

/-! ## C15: reset -/

/-- C15: from every state `reset()` yields the engine's fresh game as
position, an empty `moveHistory`, no selection, no destinations, no pending
promotion and no `lastMove`, and hands `onUpdate` exactly one projection, the
one of that state. -/
theorem reset_returns_to_fresh_idle {Pos : Type} (E : Engine Pos) (h : ChessHandler Pos) :
    (reset E h).chess = E.newGame ∧
    (reset E h).moveHistory = [] ∧
    (reset E h).selectedSquare = none ∧
    (reset E h).validMoves = [] ∧
    (reset E h).promotionMove = none ∧
    (reset E h).lastMove = none ∧
    (reset E h).trace = h.trace ++ [Effect.updated (viewState E (reset E h))] ∧
    (viewState E (reset E h)).moveCount = 0 ∧
    (viewState E (reset E h)).selectedSquare = none ∧
    (viewState E (reset E h)).validMoves = [] ∧
    (viewState E (reset E h)).isAwaitingPromotion = false ∧
    (viewState E (reset E h)).lastMove = none ∧
    (viewState E (reset E h)).boardState = E.board E.newGame :=
  ⟨rfl, rfl, rfl, rfl, rfl, rfl, rfl, rfl, rfl, rfl, rfl, rfl, rfl⟩

/-! ## C16: the status string -/

/-- C16: whatever the engine answers, `getGameStatus` is the string of the
first condition that holds in the order checkmate, stalemate, threefold
repetition, insufficient material, draw, check, and the empty string when
none holds; it is `Checkmate!` exactly when the engine reports checkmate. -/
theorem getGameStatus_is_first_that_holds {Pos : Type} (E : Engine Pos)
    (h : ChessHandler Pos) :
    getGameStatus E h =
      statusByPriority
        [ (E.isCheckmate h.chess, "Checkmate!"),
          (E.isStalemate h.chess, "Stalemate!"),
          (E.isThreefoldRepetition h.chess, "Threefold repetition!"),
          (E.isInsufficientMaterial h.chess, "Insufficient material!"),
          (E.isDraw h.chess, "Draw!"),
          (E.inCheck h.chess, "Check!") ] ∧
    (getGameStatus E h = "Checkmate!" ↔ E.isCheckmate h.chess = true) := by
  unfold getGameStatus
  cases E.isCheckmate h.chess <;> cases E.isStalemate h.chess <;>
    cases E.isThreefoldRepetition h.chess <;> cases E.isInsufficientMaterial h.chess <;>
    cases E.isDraw h.chess <;> cases E.inCheck h.chess <;>
    simp [statusByPriority]

/-! ## C17: the feedback cue of a committed move -/

/-- C17, the failing input: the record of an en-passant capture has a
captured piece and no `c` among its flags.  In the position it leads to the
game is not over and the side to move is not in check, and `playMoveSound`
plays the plain move audio, not the capture audio. -/
theorem en_passant_capture_plays_move_audio :
    MiniChess.enPassantRecord.captured = some PieceSymbol.p ∧
    isGameOver MiniChess.engine (MiniChess.idleOn MiniChess.afterEnPassant) = false ∧
    MiniChess.engine.inCheck MiniChess.afterEnPassant = false ∧
    cuesPlayed (playMoveSound MiniChess.engine (MiniChess.idleOn MiniChess.afterEnPassant)
      MiniChess.enPassantRecord).trace = [Cue.moveAudio] := by
  decide

/-! ## C18: the notation string and the move count of a projection -/

theorem projections_append (xs ys : List Effect) :
    projections (xs ++ ys) = projections xs ++ projections ys := by
  induction xs with
  | nil => rfl
  | cons x rest ih => cases x <;> simp [projections, ih]

theorem update_projections {Pos : Type} (E : Engine Pos) (h : ChessHandler Pos) :
    projections (update E h).trace = projections h.trace ++ [viewState E h] := by
  simp [update, projections_append, projections]

theorem makeMove_projections {Pos : Type} (E : Engine Pos) (h : ChessHandler Pos)
    (a b : Square) (promo : Option PieceSymbol) :
    projections (makeMove E h a b promo).trace = projections h.trace := by
  unfold makeMove; dsimp only
  split <;> simp [playMoveSound, projections_append, projections]

/-- A final `update()` emits one projection, the one of the state it is
called on. -/
theorem update_emits {Pos : Type} (E : Engine Pos) (x : ChessHandler Pos)
    (base : List ViewState) (hb : projections x.trace = base) :
    ∃ ps, projections (update E x).trace = base ++ ps ∧
      ∀ v ∈ ps, ∃ y : ChessHandler Pos, v = viewState E y ∧
        y.chess = (update E x).chess ∧ y.moveHistory = (update E x).moveHistory := by
  refine ⟨[viewState E x], ?_, ?_⟩
  · rw [update_projections, hb]
  · intro v hv
    simp only [List.mem_singleton] at hv
    exact ⟨x, hv, rfl, rfl⟩

/-- Every projection an event emits is the projection of a state that has
the position and the history the event ends with. -/
theorem step_projections {Pos : Type} (E : Engine Pos) (h : ChessHandler Pos)
    (ev : InputEvent) :
    ∃ ps, projections (step E h ev).trace = projections h.trace ++ ps ∧
      ∀ v ∈ ps, ∃ x : ChessHandler Pos, v = viewState E x ∧
        x.chess = (step E h ev).chess ∧ x.moveHistory = (step E h ev).moveHistory := by
  cases ev with
  | squareClicked sq =>
    simp only [step, handleSquareClick]
    split
    · rename_i s hsel
      split
      · refine ⟨[viewState E { h with promotionMove := some (s, sq) },
            viewState E (update E { h with promotionMove := some (s, sq) })], ?_, ?_⟩
        · rw [update_projections, update_projections, List.append_assoc]
          rfl
        · intro v hv
          simp only [List.mem_cons, List.mem_singleton, List.not_mem_nil, or_false] at hv
          rcases hv with hv | hv
          · exact ⟨_, hv, rfl, rfl⟩
          · exact ⟨_, hv, rfl, rfl⟩
      · exact update_emits E _ _ (makeMove_projections E h s sq none)
    · split
      · exact update_emits E _ _ rfl
      · exact update_emits E _ _ rfl
  | dragStarted sq =>
    simp only [step, handlePieceDrag]
    split
    · exact update_emits E _ _ rfl
    · exact ⟨[], by simp, by simp⟩
  | dropped a b =>
    simp only [step, handleDragDrop]
    split
    · exact update_emits E _ _ rfl
    · exact update_emits E _ _ (makeMove_projections E h a b none)
  | promotionChosen pc =>
    simp only [step, handlePromotion]
    split
    · rename_i a b hp
      exact update_emits E _ _ (makeMove_projections E h a b (some pc))
    · exact ⟨[], by simp, by simp⟩
  | reset =>
    simp only [step, reset]
    exact update_emits E _ _ rfl

/-- C18: the projection of a reachable state, and every projection an input
event emits from a reachable state, has as `notationString` the engine's
history entries joined by single spaces (the empty string when there are
none), and the number of those entries is the projection's `moveCount`, which
is the length of `moveHistory`. -/
theorem projection_notation_and_count {Pos : Type} (E : Engine Pos) (hE : E.Lawful)
    (h : ChessHandler Pos) (hr : Reachable E h) :
    ((viewState E h).notationString = " ".intercalate (E.history h.chess) ∧
      (E.history h.chess = [] → (viewState E h).notationString = "") ∧
      (E.history h.chess).length = (viewState E h).moveCount ∧
      (viewState E h).moveCount = h.moveHistory.length) ∧
    (∀ ev : InputEvent, ∃ ps,
      projections (step E h ev).trace = projections h.trace ++ ps ∧
      ∀ v ∈ ps,
        v.notationString = " ".intercalate (E.history (step E h ev).chess) ∧
        (E.history (step E h ev).chess = [] → v.notationString = "") ∧
        (E.history (step E h ev).chess).length = v.moveCount ∧
        v.moveCount = (step E h ev).moveHistory.length) := by
  have key : ∀ (x f : ChessHandler Pos), Reachable E f → x.chess = f.chess →
      x.moveHistory = f.moveHistory →
      (viewState E x).notationString = " ".intercalate (E.history f.chess) ∧
      (E.history f.chess = [] → (viewState E x).notationString = "") ∧
      (E.history f.chess).length = (viewState E x).moveCount ∧
      (viewState E x).moveCount = f.moveHistory.length := by
    intro x f hf hc hm
    have hs := inStep_of_reachable E hE f hf
    have hl : f.moveHistory.length = (E.history f.chess).length := by
      have := congrArg List.length hs
      simpa using this
    refine ⟨?_, ?_, ?_, ?_⟩
    · show " ".intercalate (E.history x.chess) = _
      rw [hc]
    · intro he
      show " ".intercalate (E.history x.chess) = _
      rw [hc, he]
      rfl
    · show _ = x.moveHistory.length
      rw [hm, hl]
    · show x.moveHistory.length = _
      rw [hm]
  refine ⟨key h h hr rfl rfl, fun ev => ?_⟩
  obtain ⟨ps, hps, hall⟩ := step_projections E h ev
  refine ⟨ps, hps, fun v hv => ?_⟩
  obtain ⟨x, hx, hc, hm⟩ := hall v hv
  subst hx
  exact key x (step E h ev) (Reachable.afterEvent h ev hr) hc hm

/-- Witness for C18: the projection of a fresh game after e2-e4 by two
clicks and e7-e5 by a drag shows the notation `e4 e5` and the count 2. -/
theorem projection_notation_and_count_witness :
    MiniChess.engine.Lawful ∧
    Reachable MiniChess.engine
      (run MiniChess.engine MiniChess.pawnSelected
        [InputEvent.squareClicked MiniChess.e4,
         InputEvent.dropped MiniChess.e7 MiniChess.e5]) ∧
    (viewState MiniChess.engine
      (run MiniChess.engine MiniChess.pawnSelected
        [InputEvent.squareClicked MiniChess.e4,
         InputEvent.dropped MiniChess.e7 MiniChess.e5])).notationString =
      " ".intercalate (MiniChess.engine.history
        (run MiniChess.engine MiniChess.pawnSelected
          [InputEvent.squareClicked MiniChess.e4,
           InputEvent.dropped MiniChess.e7 MiniChess.e5]).chess) ∧
    (viewState MiniChess.engine
      (run MiniChess.engine MiniChess.pawnSelected
        [InputEvent.squareClicked MiniChess.e4,
         InputEvent.dropped MiniChess.e7 MiniChess.e5])).notationString = "e4 e5" ∧
    (viewState MiniChess.engine
      (run MiniChess.engine MiniChess.pawnSelected
        [InputEvent.squareClicked MiniChess.e4,
         InputEvent.dropped MiniChess.e7 MiniChess.e5])).moveCount = 2 :=
  ⟨MiniChess.engine_lawful,
   reachable_run _ _ (reachable_run _ _ (Reachable.afterReset _) _) _,
   (projection_notation_and_count MiniChess.engine MiniChess.engine_lawful _
     (reachable_run _ _ (reachable_run _ _ (Reachable.afterReset _) _) _)).1.1,
   by decide, by decide⟩

/-! ## C19: the history only grows at its end -/

/-- Effect of `makeMove` on the history: unchanged, or one entry appended. -/
theorem makeMove_moveHistory {Pos : Type} (E : Engine Pos) (h : ChessHandler Pos)
    (a b : Square) (promo : Option PieceSymbol) :
    (makeMove E h a b promo).moveHistory = h.moveHistory ∨
    ∃ mv, (makeMove E h a b promo).moveHistory = h.moveHistory ++ [mv] := by
  rcases applied_or_rejected E h.chess { from_ := a, to_ := b, promotion := promo } with
    ⟨mv, pos1, hm⟩ | hr
  · exact Or.inr ⟨mv, (makeMove_applied E h a b promo hm).2.1⟩
  · exact Or.inl (makeMove_rejected E h a b promo hr).2.1

/-- C19: every input event other than `reset` leaves `moveHistory` unchanged
or equal to the old history with exactly one entry appended at its end. -/
theorem moveHistory_is_append_only {Pos : Type} (E : Engine Pos) (h : ChessHandler Pos)
    (ev : InputEvent) (hne : ev ≠ InputEvent.reset) :
    (step E h ev).moveHistory = h.moveHistory ∨
    ∃ mv, (step E h ev).moveHistory = h.moveHistory ++ [mv] := by
  cases ev with
  | squareClicked sq =>
    simp only [step, handleSquareClick]
    split
    · split
      · exact Or.inl rfl
      · exact makeMove_moveHistory E h _ _ _
    · split <;> exact Or.inl rfl
  | dragStarted sq =>
    simp only [step, handlePieceDrag]
    split <;> exact Or.inl rfl
  | dropped a b =>
    simp only [step, handleDragDrop]
    split
    · exact Or.inl rfl
    · exact makeMove_moveHistory E h _ _ _
  | promotionChosen pc =>
    simp only [step, handlePromotion]
    split
    · exact makeMove_moveHistory E h _ _ _
    · exact Or.inl rfl
  | reset => exact absurd rfl hne

/-- Witness for C19: the second click of e2-e4 in a fresh game appends the
engine's record of that move. -/
theorem moveHistory_is_append_only_witness :
    InputEvent.squareClicked MiniChess.e4 ≠ InputEvent.reset ∧
    ((step MiniChess.engine MiniChess.pawnSelected
        (InputEvent.squareClicked MiniChess.e4)).moveHistory =
        MiniChess.pawnSelected.moveHistory ∨
      ∃ mv, (step MiniChess.engine MiniChess.pawnSelected
        (InputEvent.squareClicked MiniChess.e4)).moveHistory =
        MiniChess.pawnSelected.moveHistory ++ [mv]) :=
  ⟨by decide,
   moveHistory_is_append_only MiniChess.engine MiniChess.pawnSelected
     (InputEvent.squareClicked MiniChess.e4) (by decide)⟩

/-! ## C20: `lastMove` follows the history -/

/-- The invariant of C20 on one state. -/
theorem lastPair_makeMove {Pos : Type} (E : Engine Pos) (h : ChessHandler Pos)
    (a b : Square) (promo : Option PieceSymbol) (hl : h.lastMove = lastPair h.moveHistory) :
    (makeMove E h a b promo).lastMove = lastPair (makeMove E h a b promo).moveHistory := by
  rcases applied_or_rejected E h.chess { from_ := a, to_ := b, promotion := promo } with
    ⟨mv, pos1, hm⟩ | hr
  · obtain ⟨_, r2, r3⟩ := makeMove_applied E h a b promo hm
    rw [r2, r3]
    simp [lastPair]
  · obtain ⟨_, r2, r3⟩ := makeMove_rejected E h a b promo hr
    rw [r2, r3, hl]

theorem lastPair_step {Pos : Type} (E : Engine Pos) (h : ChessHandler Pos) (ev : InputEvent)
    (hl : h.lastMove = lastPair h.moveHistory) :
    (step E h ev).lastMove = lastPair (step E h ev).moveHistory := by
  cases ev with
  | squareClicked sq =>
    simp only [step, handleSquareClick]
    split
    · split
      · exact hl
      · exact lastPair_makeMove E h _ _ _ hl
    · split <;> exact hl
  | dragStarted sq =>
    simp only [step, handlePieceDrag]
    split <;> exact hl
  | dropped a b =>
    simp only [step, handleDragDrop]
    split
    · exact hl
    · exact lastPair_makeMove E h _ _ _ hl
  | promotionChosen pc =>
    simp only [step, handlePromotion]
    split
    · exact lastPair_makeMove E h _ _ _ hl
    · exact hl
  | reset => rfl

/-- C20: in every reachable state `lastMove` is unset exactly when
`moveHistory` is empty, and otherwise it is the `(from, to)` pair of the last
entry of `moveHistory`. -/
theorem lastMove_is_last_history_entry {Pos : Type} (E : Engine Pos) (h : ChessHandler Pos)
    (hr : Reachable E h) :
    (h.lastMove = none ↔ h.moveHistory = []) ∧
    (∀ mv, h.moveHistory.getLast? = some mv → h.lastMove = some (mv.from_, mv.to_)) := by
  have hl : h.lastMove = lastPair h.moveHistory := by
    induction hr with
    | afterReset h0 => rfl
    | afterEvent h ev _ ih => exact lastPair_step E h ev ih
  refine ⟨?_, fun mv hmv => ?_⟩
  · rw [hl]
    simp [lastPair]
  · rw [hl]
    simp [lastPair, hmv]

/-- Witness for C20: a fresh game after e2-e4 by two clicks and e7-e5 by a
drag; `lastMove` is (e7, e5). -/
theorem lastMove_is_last_history_entry_witness :
    Reachable MiniChess.engine
      (run MiniChess.engine MiniChess.pawnSelected
        [InputEvent.squareClicked MiniChess.e4,
         InputEvent.dropped MiniChess.e7 MiniChess.e5]) ∧
    ((run MiniChess.engine MiniChess.pawnSelected
        [InputEvent.squareClicked MiniChess.e4,
         InputEvent.dropped MiniChess.e7 MiniChess.e5]).lastMove = none ↔
      (run MiniChess.engine MiniChess.pawnSelected
        [InputEvent.squareClicked MiniChess.e4,
         InputEvent.dropped MiniChess.e7 MiniChess.e5]).moveHistory = []) ∧
    (run MiniChess.engine MiniChess.pawnSelected
        [InputEvent.squareClicked MiniChess.e4,
         InputEvent.dropped MiniChess.e7 MiniChess.e5]).lastMove =
      some (MiniChess.e7, MiniChess.e5) ∧
    (run MiniChess.engine MiniChess.pawnSelected
        [InputEvent.squareClicked MiniChess.e4,
         InputEvent.dropped MiniChess.e7 MiniChess.e5]).moveHistory.length = 2 :=
  ⟨reachable_run _ _ (reachable_run _ _ (Reachable.afterReset _) _) _,
   (lastMove_is_last_history_entry MiniChess.engine _
     (reachable_run _ _ (reachable_run _ _ (Reachable.afterReset _) _) _)).1,
   by decide, by decide⟩

/-! ## C21: what a pending promotion records -/

/-- What one event does to `promotionMove`: it leaves it, unsets it, or
records a pair whose origin holds a pawn in the position of the event and
whose destination is on rank 1 or 8; recording leaves the position as it is. -/
theorem step_promotionMove {Pos : Type} (E : Engine Pos) (h : ChessHandler Pos)
    (ev : InputEvent) :
    (step E h ev).promotionMove = h.promotionMove ∨
    (step E h ev).promotionMove = none ∨
    ∃ f t, (step E h ev).promotionMove = some (f, t) ∧
      isPawn (E.get h.chess f) = true ∧ onEdgeRank t = true ∧
      (step E h ev).chess = h.chess := by
  cases ev with
  | squareClicked sq =>
    simp only [step, handleSquareClick]
    split
    · rename_i s hsel
      split
      · rename_i hg
        simp only [Bool.and_eq_true] at hg
        exact Or.inr (Or.inr ⟨s, sq, rfl, hg.1, hg.2, rfl⟩)
      · exact Or.inl (makeMove_promotionMove E h s sq none)
    · split <;> exact Or.inl rfl
  | dragStarted sq =>
    simp only [step, handlePieceDrag]
    split <;> exact Or.inl rfl
  | dropped a b =>
    simp only [step, handleDragDrop]
    split
    · rename_i hg
      simp only [Bool.and_eq_true] at hg
      exact Or.inr (Or.inr ⟨a, b, rfl, hg.1, hg.2, rfl⟩)
    · exact Or.inl (makeMove_promotionMove E h a b none)
  | promotionChosen pc =>
    simp only [step, handlePromotion]
    split
    · exact Or.inr (Or.inl rfl)
    · exact Or.inl rfl
  | reset => exact Or.inr (Or.inl rfl)

/-- C21 counterexample: in a fresh game the e2 pawn is dragged onto e8, so
the promotion (e2, e8) is pending, and is then dragged to e4, which the engine
applies.  The state is reachable, the promotion is still pending, and e2 is
empty in the current position. -/
theorem pending_promotion_origin_left_empty :
    Reachable MiniChess.engine
      (run MiniChess.engine MiniChess.pendingByDrop
        [InputEvent.dragStarted MiniChess.e2,
         InputEvent.dropped MiniChess.e2 MiniChess.e4]) ∧
    (run MiniChess.engine MiniChess.pendingByDrop
      [InputEvent.dragStarted MiniChess.e2,
       InputEvent.dropped MiniChess.e2 MiniChess.e4]).promotionMove =
      some (MiniChess.e2, MiniChess.e8) ∧
    MiniChess.engine.get
      (run MiniChess.engine MiniChess.pendingByDrop
        [InputEvent.dragStarted MiniChess.e2,
         InputEvent.dropped MiniChess.e2 MiniChess.e4]).chess MiniChess.e2 = none :=
  ⟨reachable_run _ _ (reachable_run _ _ (Reachable.afterReset _) _) _, by decide, by decide⟩

/-- C21 (amended): in every reachable state with `promotionMove = (f, t)`
the square `t` is on rank 1 or 8; and an event that records a new pair
`(f, t)` leaves the position unchanged and finds a pawn on `f` in it. -/
theorem pending_promotion_recorded_for_pawn {Pos : Type} (E : Engine Pos) :
    (∀ h : ChessHandler Pos, Reachable E h → ∀ f t : Square,
      h.promotionMove = some (f, t) → t.rank = '8' ∨ t.rank = '1') ∧
    (∀ (h : ChessHandler Pos) (ev : InputEvent) (f t : Square),
      (step E h ev).promotionMove = some (f, t) → h.promotionMove ≠ some (f, t) →
      (step E h ev).chess = h.chess ∧
      ∃ c, E.get (step E h ev).chess f = some { type := PieceSymbol.p, color := c }) := by
  have hedge : ∀ t : Square, onEdgeRank t = true → t.rank = '8' ∨ t.rank = '1' := by
    intro t ht
    simpa [onEdgeRank] using ht
  have hpawn : ∀ (pos : Pos) (f : Square), isPawn (E.get pos f) = true →
      ∃ c, E.get pos f = some { type := PieceSymbol.p, color := c } := by
    intro pos f hp
    cases hg : E.get pos f with
    | none => simp [isPawn, hg] at hp
    | some pc =>
      cases pc with
      | mk ty c =>
        simp only [isPawn, hg, beq_iff_eq] at hp
        exact ⟨c, by rw [hp]⟩
  refine ⟨fun h hr => ?_, fun h ev f t hnew hold => ?_⟩
  · induction hr with
    | afterReset h0 =>
      intro f t hp
      simp [reset] at hp
    | afterEvent h ev _ ih =>
      intro f t hp
      rcases step_promotionMove E h ev with hsame | hnone | ⟨f1, t1, hrec, _, hedge1, _⟩
      · exact ih f t (hsame ▸ hp)
      · rw [hnone] at hp
        cases hp
      · rw [hrec] at hp
        simp only [Option.some.injEq, Prod.mk.injEq] at hp
        exact hedge t (hp.2 ▸ hedge1)
  · rcases step_promotionMove E h ev with hsame | hnone | ⟨f1, t1, hrec, hp1, _, hc⟩
    · exact absurd (hsame ▸ hnew) hold
    · rw [hnone] at hnew
      cases hnew
    · rw [hrec] at hnew
      simp only [Option.some.injEq, Prod.mk.injEq] at hnew
      refine ⟨hc, ?_⟩
      rw [hc, ← hnew.1]
      exact hpawn h.chess f1 hp1

/-- Witness for C21 (amended): in a fresh game the e2 pawn is dropped on e8;
the recorded destination is on rank 8 and e2 holds a white pawn. -/
theorem pending_promotion_recorded_for_pawn_witness :
    Reachable MiniChess.engine MiniChess.pendingByDrop ∧
    MiniChess.pendingByDrop.promotionMove = some (MiniChess.e2, MiniChess.e8) ∧
    (MiniChess.e8.rank = '8' ∨ MiniChess.e8.rank = '1') ∧
    MiniChess.engine.get MiniChess.pendingByDrop.chess MiniChess.e2 =
      some { type := PieceSymbol.p, color := Color.w } :=
  ⟨reachable_run _ _ (Reachable.afterReset _) _, by decide,
   (pending_promotion_recorded_for_pawn MiniChess.engine).1 MiniChess.pendingByDrop
     (reachable_run _ _ (Reachable.afterReset _) _) MiniChess.e2 MiniChess.e8 (by decide),
   by decide⟩

/-! ## C22: the projection is pure -/

/-- C22: `update()` changes none of the six session fields, the projection
of the state after it equals the one before it, and two `update()` calls in a
row hand `onUpdate` two equal projections. -/
theorem update_is_pure {Pos : Type} (E : Engine Pos) (h : ChessHandler Pos) :
    session (update E h) = session h ∧
    viewState E (update E h) = viewState E h ∧
    projections (update E (update E h)).trace =
      projections h.trace ++ [viewState E h, viewState E h] := by
  refine ⟨rfl, rfl, ?_⟩
  rw [update_projections, update_projections, List.append_assoc]
  rfl

/-! ## C23: the move minimum of the two forms -/

/-- C23 counterexample: with twenty moves on the board, a username and a
pattern, the registration form shows its message and sends nothing, while
the account-update form sends the new pattern. -/
theorem forms_differ_at_twenty_moves :
    jsTrim "alice" ≠ "" ∧
    jsTrim "Nf3 Nf6 Ng1 Ng8 Nf3 Nf6 Ng1 Ng8 Nf3 Nf6 Ng1 Ng8 Nf3 Nf6 Ng1 Ng8 Nf3 Nf6 Ng1 Ng8" ≠
      "" ∧
    Server.patternMoves
      "Nf3 Nf6 Ng1 Ng8 Nf3 Nf6 Ng1 Ng8 Nf3 Nf6 Ng1 Ng8 Nf3 Nf6 Ng1 Ng8 Nf3 Nf6 Ng1 Ng8" = 20 ∧
    (Forms.registerFormSubmit "alice"
      "Nf3 Nf6 Ng1 Ng8 Nf3 Nf6 Ng1 Ng8 Nf3 Nf6 Ng1 Ng8 Nf3 Nf6 Ng1 Ng8 Nf3 Nf6 Ng1 Ng8"
      20).isRequest = false ∧
    (Forms.accountUpdateFormSubmit ""
      "Nf3 Nf6 Ng1 Ng8 Nf3 Nf6 Ng1 Ng8 Nf3 Nf6 Ng1 Ng8 Nf3 Nf6 Ng1 Ng8 Nf3 Nf6 Ng1 Ng8"
      20).isRequest = true := by
  decide

/-- C23 (amended): with a non-empty username and a non-empty pattern the
registration form sends the request exactly when the move count is more than
20, and the account-update form sends a new pattern exactly when the move
count is at least 20; so the two agree for every move count except 20. -/
theorem forms_minimum_move_counts (usernameValue newUsernameValue notationValue : String)
    (n : Nat) (hu : jsTrim usernameValue ≠ "") (hp : jsTrim notationValue ≠ "") :
    ((Forms.registerFormSubmit usernameValue notationValue n).isRequest = true ↔ 20 < n) ∧
    ((Forms.accountUpdateFormSubmit newUsernameValue notationValue n).isRequest = true ↔
      20 ≤ n) ∧
    (n ≠ 20 →
      (Forms.registerFormSubmit usernameValue notationValue n).isRequest =
        (Forms.accountUpdateFormSubmit newUsernameValue notationValue n).isRequest) := by
  have hreg : (Forms.registerFormSubmit usernameValue notationValue n).isRequest = true ↔
      20 < n := by
    unfold Forms.registerFormSubmit
    simp only [hu, hp, if_false]
    by_cases hn : n ≤ 20
    · simp [hn, Forms.Outcome.isRequest]
    · simp only [hn, if_false, Forms.Outcome.isRequest, true_iff]
      omega
  have hacc : (Forms.accountUpdateFormSubmit newUsernameValue notationValue n).isRequest =
      true ↔ 20 ≤ n := by
    unfold Forms.accountUpdateFormSubmit
    simp only [hp, and_false, if_false, ne_eq, not_false_eq_true, true_and]
    by_cases hn : n < 20
    · simp only [hn, if_true, Forms.Outcome.isRequest]
      constructor
      · intro hx; cases hx
      · intro hx; omega
    · simp only [hn, if_false, Forms.Outcome.isRequest, true_iff]
      omega
  refine ⟨hreg, hacc, fun hne => ?_⟩
  cases hr : (Forms.registerFormSubmit usernameValue notationValue n).isRequest <;>
    cases ha : (Forms.accountUpdateFormSubmit newUsernameValue notationValue n).isRequest
  · rfl
  · have h1 := hacc.mp ha
    have h2 : ¬ 20 < n := fun hx => by
      have := hreg.mpr hx
      rw [hr] at this
      cases this
    omega
  · have h1 := hreg.mp hr
    have h2 : ¬ 20 ≤ n := fun hx => by
      have := hacc.mpr hx
      rw [ha] at this
      cases this
    omega
  · rfl

/-- Witness for C23 (amended): with 21 moves both forms send. -/
theorem forms_minimum_move_counts_witness :
    jsTrim "alice" ≠ "" ∧ jsTrim "e4 e5" ≠ "" ∧
    ((Forms.registerFormSubmit "alice" "e4 e5" 21).isRequest = true ↔ 20 < 21) ∧
    (Forms.registerFormSubmit "alice" "e4 e5" 21).isRequest =
      (Forms.accountUpdateFormSubmit "" "e4 e5" 21).isRequest :=
  ⟨by decide, by decide,
   (forms_minimum_move_counts "alice" "" "e4 e5" 21 (by decide) (by decide)).1,
   (forms_minimum_move_counts "alice" "" "e4 e5" 21 (by decide) (by decide)).2.2 (by decide)⟩

/-! ## C24: notes of other users -/

/-- C24 counterexample: user 3 sends `PUT /api/notes/1` with a blank content
while note 1 belongs to user 2.  The answer is 400, not 404. -/
theorem put_with_blank_content_is_400 :
    (Server.putNote [{ id := 1, user_id := 2, content := "secret", tag := "none" }]
      (some 3) (some 1) (some "   ") none false).1 =
      { status := 400, success := false, message := some "Note content required." } ∧
    (Server.putNote [{ id := 1, user_id := 2, content := "secret", tag := "none" }]
      (some 3) (some 1) (some "   ") none false).2 =
      [{ id := 1, user_id := 2, content := "secret", tag := "none" }] := by
  decide

/-- Rows a statement with `WHERE id = ? AND user_id = ?` matches none of
are all kept as they are by the update and by the delete. -/
theorem unowned_rows_kept (notes : List Server.Note) (noteId : Option Nat) (userId : Nat)
    (f : Server.Note → Server.Note)
    (hother : ∀ n ∈ notes, Server.owns noteId userId n = false) :
    (notes.filter (Server.owns noteId userId)).length = 0 ∧
    notes.map (fun n => if Server.owns noteId userId n = true then f n else n) = notes ∧
    notes.filter (fun n => ! Server.owns noteId userId n) = notes := by
  induction notes with
  | nil => exact ⟨rfl, rfl, rfl⟩
  | cons n rest ih =>
    have hn : Server.owns noteId userId n = false := hother n (List.mem_cons_self _ _)
    obtain ⟨i1, i2, i3⟩ := ih (fun m hm => hother m (List.mem_cons_of_mem _ hm))
    refine ⟨?_, ?_, ?_⟩
    · simp only [List.filter_cons, hn, Bool.false_eq_true, if_false]
      exact i1
    · simp only [List.map_cons, hn, Bool.false_eq_true, if_false, i2]
    · simp only [List.filter_cons, hn, Bool.not_false, if_true, i3]

/-- C24 (amended): for a logged-in user `u` and a request whose id names no
note of `u`, `DELETE /api/notes/:id` leaves every stored note unchanged and
answers 404 with the permission message, and so does `PUT /api/notes/:id`
when its content is not blank; a `PUT` with a blank or missing content is
answered 400 before the note is looked up; when SQLite reports an error the
answer is 500; the table is unchanged in all these cases.  Without a session
user both routes answer 401 and change nothing. -/
theorem notes_of_other_users_unchanged (notes : List Server.Note) (u : Nat)
    (noteId : Option Nat) (content tag : Option String) (hu : u ≠ 0)
    (hother : ∀ n ∈ notes, noteId = some n.id → n.user_id ≠ u) :
    Server.deleteNote notes (some u) noteId false =
      ({ status := 404, success := false,
         message := some "Note not found or you do not have permission to delete it." },
        notes) ∧
    (Server.contentOf content ≠ "" →
      Server.putNote notes (some u) noteId content tag false =
        ({ status := 404, success := false,
           message := some "Note not found or you do not have permission to edit it." },
          notes)) ∧
    (Server.contentOf content = "" → ∀ dbError,
      Server.putNote notes (some u) noteId content tag dbError =
        ({ status := 400, success := false, message := some "Note content required." },
          notes)) ∧
    (Server.deleteNote notes (some u) noteId true).2 = notes ∧
    (Server.deleteNote notes (some u) noteId true).1.status = 500 ∧
    (Server.contentOf content ≠ "" →
      (Server.putNote notes (some u) noteId content tag true).2 = notes ∧
      (Server.putNote notes (some u) noteId content tag true).1.status = 500) ∧
    (∀ dbError,
      Server.putNote notes none noteId content tag dbError =
        ({ status := 401, success := false, message := some "Unauthorized" }, notes) ∧
      Server.deleteNote notes none noteId dbError =
        ({ status := 401, success := false, message := some "Unauthorized" }, notes) ∧
      Server.putNote notes (some 0) noteId content tag dbError =
        ({ status := 401, success := false, message := some "Unauthorized" }, notes) ∧
      Server.deleteNote notes (some 0) noteId dbError =
        ({ status := 401, success := false, message := some "Unauthorized" }, notes)) := by
  have hnone : ∀ n ∈ notes, Server.owns noteId u n = false := by
    intro n hn
    cases hx : Server.owns noteId u n
    · rfl
    · simp only [Server.owns, decide_eq_true_eq] at hx
      exact absurd hx.2 (hother n hn hx.1)
  have hk := unowned_rows_kept notes noteId u
    (fun n => { n with content := Server.contentOf content, tag := Server.tagOf tag }) hnone
  refine ⟨?_, fun hc => ?_, fun hc dbError => ?_, ?_, ?_, fun hc => ?_, fun dbError => ?_⟩
  · simp only [Server.deleteNote, Server.requireLogin, hu, if_false, Bool.false_eq_true,
      hk.1, hk.2.2, if_true]
  · simp only [Server.putNote, Server.requireLogin, hu, hc, if_false, Bool.false_eq_true,
      hk.1, hk.2.1, if_true]
  · simp only [Server.putNote, Server.requireLogin, hu, hc, if_false, if_true]
  · simp [Server.deleteNote, Server.requireLogin, hu]
  · simp [Server.deleteNote, Server.requireLogin, hu]
  · simp [Server.putNote, Server.requireLogin, hu, hc]
  · simp [Server.putNote, Server.deleteNote, Server.requireLogin]

/-- Witness for C24 (amended): user 3 asks to delete and to edit note 1,
which belongs to user 2. -/
theorem notes_of_other_users_unchanged_witness :
    (3 : Nat) ≠ 0 ∧
    (∀ n ∈ [({ id := 1, user_id := 2, content := "secret", tag := "none" } : Server.Note)],
      some 1 = some n.id → n.user_id ≠ 3) ∧
    Server.deleteNote [{ id := 1, user_id := 2, content := "secret", tag := "none" }]
      (some 3) (some 1) false =
      ({ status := 404, success := false,
         message := some "Note not found or you do not have permission to delete it." },
        [{ id := 1, user_id := 2, content := "secret", tag := "none" }]) ∧
    (Server.putNote [{ id := 1, user_id := 2, content := "secret", tag := "none" }]
      (some 3) (some 1) (some "mine now") none false).1.status = 404 ∧
    (Server.putNote [{ id := 1, user_id := 2, content := "secret", tag := "none" }]
      (some 2) (some 1) (some "mine still") none false).2 =
      [{ id := 1, user_id := 2, content := "mine still", tag := "none" }] :=
  ⟨by decide, by decide,
   (notes_of_other_users_unchanged
     [{ id := 1, user_id := 2, content := "secret", tag := "none" }] 3 (some 1)
     (some "mine now") none (by decide) (by decide)).1,
   by decide, by decide⟩

/-! ## C25: the destination of a move call -/

/-- The call an event makes, if it makes one: its flag tells whether the
engine applied the request in the position of the event, and a rejected call
leaves position and history unchanged. -/
theorem step_call {Pos : Type} (E : Engine Pos) (h : ChessHandler Pos) (ev : InputEvent)
    (req : MoveRequest) (applied : Bool)
    (hcall : moveCalls (step E h ev).trace = moveCalls h.trace ++ [(req, applied)]) :
    applied = (! isRejected E h.chess req) ∧
    (isRejected E h.chess req = true →
      (step E h ev).chess = h.chess ∧ (step E h ev).moveHistory = h.moveHistory) := by
  have key : ∀ (a b : Square) (promo : Option PieceSymbol),
      moveCalls (makeMove E h a b promo).trace = moveCalls h.trace ++ [(req, applied)] →
      applied = (! isRejected E h.chess req) ∧
      (isRejected E h.chess req = true →
        (makeMove E h a b promo).chess = h.chess ∧
        (makeMove E h a b promo).moveHistory = h.moveHistory) := by
    intro a b promo hc
    rw [makeMove_moveCalls] at hc
    have h1 := List.append_cancel_left hc
    simp only [List.cons.injEq, Prod.mk.injEq, and_true] at h1
    obtain ⟨h2, h3⟩ := h1
    subst h2
    refine ⟨h3.symm, fun hr => ?_⟩
    obtain ⟨r1, r2, _⟩ := makeMove_rejected E h a b promo hr
    exact ⟨r1, r2⟩
  cases ev with
  | squareClicked sq =>
    simp only [step, handleSquareClick] at hcall ⊢
    split at hcall
    · rename_i s hsel
      split at hcall
      · simp [update_moveCalls] at hcall
      · rename_i hnp
        rw [update_moveCalls] at hcall
        simp only [hsel, hnp, Bool.false_eq_true, if_false]
        exact key s sq none hcall
    · split at hcall <;> simp [update_moveCalls] at hcall
  | dragStarted sq =>
    simp only [step, handlePieceDrag] at hcall ⊢
    split at hcall <;> simp [update_moveCalls] at hcall
  | dropped a b =>
    simp only [step, handleDragDrop] at hcall ⊢
    split at hcall
    · simp [update_moveCalls] at hcall
    · rename_i hnp
      rw [update_moveCalls] at hcall
      simp only [hnp, Bool.false_eq_true, if_false]
      exact key a b none hcall
  | promotionChosen pc =>
    simp only [step, handlePromotion] at hcall ⊢
    split at hcall
    · rename_i a b hp
      rw [update_moveCalls] at hcall
      exact key a b (some pc) hcall
    · simp at hcall
  | reset =>
    simp only [step, reset, update_moveCalls] at hcall
    have hl := congrArg List.length hcall
    simp [moveCalls_append] at hl

/-- C25 counterexample: e2 is selected in a fresh game and e5 is clicked.
The square e5 is not among the destinations the engine lists for e2, and the
handler calls the engine's `move` for (e2, e5) all the same. -/
theorem move_called_for_illegal_destination :
    Reachable MiniChess.engine MiniChess.pawnSelected ∧
    MiniChess.e5 ∉
      (MiniChess.engine.moves MiniChess.pawnSelected.chess MiniChess.e2).map (fun m => m.to_) ∧
    MiniChess.e5 ∉ MiniChess.pawnSelected.validMoves ∧
    moveCalls (step MiniChess.engine MiniChess.pawnSelected
        (InputEvent.squareClicked MiniChess.e5)).trace =
      moveCalls MiniChess.pawnSelected.trace ++
        [({ from_ := MiniChess.e2, to_ := MiniChess.e5, promotion := none }, false)] :=
  ⟨reachable_run _ _ (Reachable.afterReset _) _, by decide, by decide, by decide⟩

/-- C25 (amended): the handler does not look at the destinations before it
calls the engine, the engine does: whenever an event makes a `move` call, the
engine applies it only if the destination is among those it lists for the
origin in the current position, and a call with any other destination is
rejected and leaves the position and `moveHistory` unchanged. -/
theorem engine_decides_move_calls {Pos : Type} (E : Engine Pos) (hE : E.Lawful)
    (h : ChessHandler Pos) (ev : InputEvent) (req : MoveRequest) (applied : Bool)
    (hcall : moveCalls (step E h ev).trace = moveCalls h.trace ++ [(req, applied)]) :
    (applied = true → req.to_ ∈ (E.moves h.chess req.from_).map (fun m => m.to_)) ∧
    (req.to_ ∉ (E.moves h.chess req.from_).map (fun m => m.to_) →
      applied = false ∧ (step E h ev).chess = h.chess ∧
      (step E h ev).moveHistory = h.moveHistory) := by
  obtain ⟨hflag, hrej⟩ := step_call E h ev req applied hcall
  have hlegal : isRejected E h.chess req = false →
      req.to_ ∈ (E.moves h.chess req.from_).map (fun m => m.to_) := by
    intro hr
    rcases applied_or_rejected E h.chess req with ⟨mv, pos1, hm⟩ | hx
    · exact hE.move_legal _ _ _ _ hm
    · rw [hx] at hr
      cases hr
  refine ⟨fun ha => ?_, fun hnot => ?_⟩
  · apply hlegal
    rw [ha] at hflag
    cases hx : isRejected E h.chess req
    · rfl
    · rw [hx] at hflag
      cases hflag
  · have hr : isRejected E h.chess req = true := by
      cases hx : isRejected E h.chess req
      · exact absurd (hlegal hx) hnot
      · rfl
    refine ⟨?_, hrej hr⟩
    rw [hflag, hr]
    rfl

/-- Witness for C25 (amended): e2 is selected in a fresh game; clicking e5
makes a call the engine rejects, clicking e4 one it applies. -/
theorem engine_decides_move_calls_witness :
    MiniChess.engine.Lawful ∧
    moveCalls (step MiniChess.engine MiniChess.pawnSelected
        (InputEvent.squareClicked MiniChess.e4)).trace =
      moveCalls MiniChess.pawnSelected.trace ++
        [({ from_ := MiniChess.e2, to_ := MiniChess.e4, promotion := none }, true)] ∧
    MiniChess.e4 ∈
      (MiniChess.engine.moves MiniChess.pawnSelected.chess MiniChess.e2).map (fun m => m.to_) :=
  ⟨MiniChess.engine_lawful, by decide,
   (engine_decides_move_calls MiniChess.engine MiniChess.engine_lawful MiniChess.pawnSelected
     (InputEvent.squareClicked MiniChess.e4)
     { from_ := MiniChess.e2, to_ := MiniChess.e4, promotion := none } true (by decide)).1 rfl⟩

/-! ## C26: a plain mouse click on a piece -/

/-- Events the board dispatches for a plain click on the piece of a square,
whatever the drag fields were: `piece-dragged`, no `piece-dropped`, then
`square-click`. -/
theorem plainClick_events (s : ChessBoard.DragState) (sq : Square) :
    (ChessBoard.listenAll s (ChessBoard.plainClick sq)).2 =
      [ChessBoard.BoardEvent.pieceDragged sq, ChessBoard.BoardEvent.squareClick sq] := by
  simp [ChessBoard.listenAll, ChessBoard.plainClick, ChessBoard.listen,
    ChessBoard.handleMouseDown, ChessBoard.handleSquareMouseUp, ChessBoard.handleSquareClick]

/-- C26, the failing input: a fresh game is Idle and e2 holds a pawn of the
side to move.  A plain click on it makes the board dispatch `piece-dragged`
for e2 and then `square-click` for e2; passed to the handler as `setupChess`
binds them, they leave nothing selected and no destinations. -/
theorem plain_click_leaves_nothing_selected :
    MiniChess.fresh.selectedSquare = none ∧
    MiniChess.fresh.promotionMove = none ∧
    isMovable MiniChess.engine MiniChess.fresh.chess
      (MiniChess.engine.get MiniChess.fresh.chess MiniChess.e2) = true ∧
    (ChessBoard.listenAll ChessBoard.initial (ChessBoard.plainClick MiniChess.e2)).2 =
      [ChessBoard.BoardEvent.pieceDragged MiniChess.e2,
       ChessBoard.BoardEvent.squareClick MiniChess.e2] ∧
    (run MiniChess.engine MiniChess.fresh
      ((ChessBoard.listenAll ChessBoard.initial
        (ChessBoard.plainClick MiniChess.e2)).2.map setupChess)).selectedSquare = none ∧
    (run MiniChess.engine MiniChess.fresh
      ((ChessBoard.listenAll ChessBoard.initial
        (ChessBoard.plainClick MiniChess.e2)).2.map setupChess)).validMoves = [] ∧
    moveCalls (run MiniChess.engine MiniChess.fresh
      ((ChessBoard.listenAll ChessBoard.initial
        (ChessBoard.plainClick MiniChess.e2)).2.map setupChess)).trace =
      [({ from_ := MiniChess.e2, to_ := MiniChess.e2, promotion := none }, false)] := by
  decide

/-! ## C27: a drag released outside the board -/

/-- The constructor registers no listener on the document: binding
`handleMouseMove`, which the class does not define, ends it before the
`mouseup` listener is added. -/
theorem constructor_registers_no_document_listener :
    ChessBoard.documentListeners ChessBoard.constructorTail = [] := by
  decide

/-- So a `mouseup` that reaches the document leaves the drag fields as they
are: `handleMouseUp` is not run. -/
theorem documentMouseUp_is_not_run (s : ChessBoard.DragState) :
    ChessBoard.documentMouseUp s = s := by
  have h : ChessBoard.documentListeners ChessBoard.constructorTail = [] := by decide
  simp [ChessBoard.documentMouseUp, h]

/-- Releasing the button outside the board changes nothing and dispatches
nothing. -/
theorem mouseup_outside_changes_nothing (s : ChessBoard.DragState) :
    ChessBoard.listen s ChessBoard.Gesture.mouseUpOutside = (s, []) := by
  simp [ChessBoard.listen, documentMouseUp_is_not_run]

/-- The method `handleMouseUp` as written does not touch `mouseDownSquare`,
the one field `handleSquareMouseUp` tests. -/
theorem handleMouseUp_keeps_mouseDownSquare (s : ChessBoard.DragState) :
    (ChessBoard.handleMouseUp s).mouseDownSquare = s.mouseDownSquare := by
  unfold ChessBoard.handleMouseUp
  split <;> rfl

/-- C27, the failing input: the mouse button goes down on the piece of e2
and is released outside the board.  No listener is registered on the document,
so the release cancels nothing: `mouseDownSquare` is still e2 and `isDragging`
still true, and the next button release over the square e4 dispatches
`piece-dropped` for (e2, e4). -/
theorem stale_drag_is_dropped :
    ChessBoard.documentListeners ChessBoard.constructorTail = [] ∧
    (ChessBoard.listenAll ChessBoard.initial
      [ChessBoard.Gesture.mouseDownOnPiece MiniChess.e2,
       ChessBoard.Gesture.mouseUpOutside]).1 =
      { mouseDownSquare := some MiniChess.e2, isDragging := true } ∧
    (ChessBoard.listen
      (ChessBoard.listenAll ChessBoard.initial
        [ChessBoard.Gesture.mouseDownOnPiece MiniChess.e2,
         ChessBoard.Gesture.mouseUpOutside]).1
      (ChessBoard.Gesture.mouseUpOnSquare MiniChess.e4)).2 =
      [ChessBoard.BoardEvent.pieceDropped MiniChess.e2 MiniChess.e4] := by
  decide

/-- What does hold of a button release over a square: it unsets
`mouseDownSquare` and leaves `isDragging` as it was, and `piece-dropped` is
dispatched only with the square of the last button press on a piece as its
origin. -/
theorem square_mouseup_clears_origin (s : ChessBoard.DragState) (sq : Square) :
    (ChessBoard.listen s (ChessBoard.Gesture.mouseUpOnSquare sq)).1 =
      { s with mouseDownSquare := none } ∧
    ∀ ev ∈ (ChessBoard.listen s (ChessBoard.Gesture.mouseUpOnSquare sq)).2,
      ∃ a, s.mouseDownSquare = some a ∧ a ≠ sq ∧ ev = ChessBoard.BoardEvent.pieceDropped a sq := by
  refine ⟨?_, ?_⟩
  · simp [ChessBoard.listen, ChessBoard.handleSquareMouseUp, documentMouseUp_is_not_run]
  · intro ev hev
    simp only [ChessBoard.listen, ChessBoard.handleSquareMouseUp] at hev
    cases hm : s.mouseDownSquare with
    | none => simp [hm] at hev
    | some a =>
      by_cases ha : a = sq
      · simp [hm, ha] at hev
      · simp only [hm, ne_eq, ha, not_false_eq_true, if_true, List.mem_singleton] at hev
        exact ⟨a, rfl, ha, hev⟩

/-- One gesture keeps `mouseDownSquare` set only while `isDragging` is true,
and never clears `isDragging`. -/
theorem listen_keeps_dragging (s : ChessBoard.DragState) (g : ChessBoard.Gesture)
    (h : s.mouseDownSquare ≠ none → s.isDragging = true) :
    ((ChessBoard.listen s g).1.mouseDownSquare ≠ none →
      (ChessBoard.listen s g).1.isDragging = true) ∧
    (s.isDragging = true → (ChessBoard.listen s g).1.isDragging = true) := by
  cases g <;>
    simp [ChessBoard.listen, ChessBoard.handleMouseDown, ChessBoard.handleSquareMouseUp,
      documentMouseUp_is_not_run] <;> exact h

/-- The part of the invariant that does hold: in every state reached from the
constructed one `mouseDownSquare` is set only while `isDragging` is true,
since nothing ever clears `isDragging`. -/
theorem origin_set_only_while_dragging (gs : List ChessBoard.Gesture) :
    (ChessBoard.listenAll ChessBoard.initial gs).1.mouseDownSquare ≠ none →
      (ChessBoard.listenAll ChessBoard.initial gs).1.isDragging = true := by
  have key : ∀ (gs : List ChessBoard.Gesture) (s : ChessBoard.DragState),
      (s.mouseDownSquare ≠ none → s.isDragging = true) →
      ((ChessBoard.listenAll s gs).1.mouseDownSquare ≠ none →
        (ChessBoard.listenAll s gs).1.isDragging = true) := by
    intro gs
    induction gs with
    | nil => intro s h; simpa [ChessBoard.listenAll] using h
    | cons g rest ih =>
      intro s h
      simp only [ChessBoard.listenAll]
      exact ih _ (listen_keeps_dragging s g h).1
  exact key gs ChessBoard.initial (by simp [ChessBoard.initial])

/-! ## C28: responses of `PUT /api/account` -/

/-- C28, the failing input: a logged-in user sends both a new username and a
new password of nine characters, the minimum being 8, and both updates
succeed.  The handler sends two responses. -/
theorem account_update_answers_twice :
    Server.putAccount (some 1) (some "bob") (some "e4 e5 Nf3") (Server.minPasswordLength none)
      false false false =
      [{ status := 200, success := true, message := some "Account updated successfully." },
       { status := 200, success := true, message := some "Account updated successfully." }] := by
  decide

/-- In every other case one response: when the session has no user, when no
field is given, when only one field is given, when the new password is too
short or when hashing it fails. -/
theorem account_update_answers_once (sessionUserId : Option Nat)
    (newUsername newPassword : Option String) (minLength : Int)
    (hashFails passwordUpdateFails usernameUpdateFails : Bool)
    (hnot : ¬ (truthy newUsername = true ∧ truthy newPassword = true ∧
      (∀ pw, newPassword = some pw → minLength ≤ (jsLength pw : Int)) ∧ hashFails = false)) :
    (Server.putAccount sessionUserId newUsername newPassword minLength hashFails
      passwordUpdateFails usernameUpdateFails).length = 1 := by
  unfold Server.putAccount Server.requireLogin
  cases sessionUserId with
  | none => rfl
  | some userId =>
    by_cases h0 : userId = 0
    · simp [h0]
    · simp only [h0, if_false]
      cases newPassword with
      | none =>
        have hP : truthy (none : Option String) = false := rfl
        cases hU : truthy newUsername <;> cases usernameUpdateFails <;>
          simp [hU, hP, Server.accountPasswordPart, Server.accountUsernamePart]
      | some pw =>
        by_cases hpw : pw = ""
        · subst hpw
          have hP : truthy (some "") = false := rfl
          cases hU : truthy newUsername <;> cases usernameUpdateFails <;>
            simp [hU, hP, Server.accountPasswordPart, Server.accountUsernamePart]
        · have hP : truthy (some pw) = true := by simp [truthy, hpw]
          by_cases hlen : (jsLength pw : Int) < minLength
          · cases hU : truthy newUsername <;>
              simp [hU, hP, hpw, hlen, Server.accountPasswordPart]
          · cases hH : hashFails
            · cases hU : truthy newUsername
              · cases passwordUpdateFails <;>
                  simp [hU, hP, hpw, hlen, Server.accountPasswordPart,
                    Server.accountUsernamePart]
              · exfalso
                apply hnot
                refine ⟨hU, hP, ?_, hH⟩
                intro pw2 hx
                cases hx
                omega
            · cases hU : truthy newUsername <;>
                simp [hU, hP, hpw, hlen, Server.accountPasswordPart]

/-! ## C29: what the server demands of a registration -/

/-- C29 counterexample: with the default minimum of 8 characters the server
accepts the username `bob` with the pattern `e4 e5 Nf3`, nine characters and
three moves: it answers with success and inserts the user. -/
theorem register_accepts_three_moves :
    (Server.postRegister [] (some "bob") (some "e4 e5 Nf3") (Server.minPasswordLength none)
      (fun pw => some pw)).1 =
      { status := 200, success := true, message := some "Registration successful." } ∧
    (Server.postRegister [] (some "bob") (some "e4 e5 Nf3") (Server.minPasswordLength none)
      (fun pw => some pw)).2 =
      [{ id := 1, username := "bob", password_hash := "e4 e5 Nf3" }] ∧
    Server.patternMoves "e4 e5 Nf3" = 3 ∧
    ¬ 20 < Server.patternMoves "e4 e5 Nf3" := by
  decide

/-- C29 (amended): every request `POST /api/register` accepts carries a
non-empty username and a password of at least `minPasswordLength` characters
(UTF-16 code units; 8 unless configured), and exactly that user is inserted;
the server does not count moves. -/
theorem register_demands_characters (users : List Server.User)
    (username password : Option String) (minLength : Int) (hash : String → Option String)
    (hacc : (Server.postRegister users username password minLength hash).1.success = true) :
    ∃ name pw hashed, username = some name ∧ password = some pw ∧ name ≠ "" ∧ pw ≠ "" ∧
      minLength ≤ (jsLength pw : Int) ∧ hash pw = some hashed ∧
      (∀ u ∈ users, u.username ≠ name) ∧
      ∃ id, (Server.postRegister users username password minLength hash).2 =
        users ++ [{ id := id, username := name, password_hash := hashed }] := by
  unfold Server.postRegister at hacc ⊢
  cases username with
  | none => cases password <;> simp at hacc
  | some name =>
    cases password with
    | none => simp at hacc
    | some pw =>
      simp only at hacc ⊢
      by_cases hg : name = "" ∨ pw = "" ∨ (jsLength pw : Int) < minLength
      · simp [hg] at hacc
      · simp only [hg, if_false] at hacc ⊢
        cases hh : hash pw with
        | none => simp [hh] at hacc
        | some hashed =>
          simp only [hh] at hacc ⊢
          by_cases hdup : (users.any (fun u => decide (u.username = name))) = true
          · simp [hdup] at hacc
          · simp only [hdup, Bool.false_eq_true, if_false]
            simp only [not_or, not_lt] at hg
            refine ⟨name, pw, hashed, rfl, rfl, hg.1, hg.2.1, hg.2.2, hh, ?_, _, rfl⟩
            intro u hu hx
            apply hdup
            simp only [List.any_eq_true, decide_eq_true_eq]
            exact ⟨u, hu, hx⟩

/-- Witness for C29 (amended): the accepted registration of `bob` with the
pattern `e4 e5 Nf3`. -/
theorem register_demands_characters_witness :
    (Server.postRegister [] (some "bob") (some "e4 e5 Nf3") (Server.minPasswordLength none)
      (fun pw => some pw)).1.success = true ∧
    ∃ name pw hashed, some "bob" = some name ∧ some "e4 e5 Nf3" = some pw ∧ name ≠ "" ∧
      pw ≠ "" ∧ Server.minPasswordLength none ≤ (jsLength pw : Int) ∧
      (fun pw => some pw) pw = some hashed ∧
      (∀ u ∈ ([] : List Server.User), u.username ≠ name) ∧
      ∃ id, (Server.postRegister [] (some "bob") (some "e4 e5 Nf3")
          (Server.minPasswordLength none) (fun pw => some pw)).2 =
        [] ++ [{ id := id, username := name, password_hash := hashed }] :=
  ⟨by decide,
   register_demands_characters [] (some "bob") (some "e4 e5 Nf3")
     (Server.minPasswordLength none) (fun pw => some pw) (by decide)⟩

/-! ## C30: the index of the current song -/

/-- C30, the failing input: with an empty playlist `next()` turns
`currentSongIndex` from 0 into `NaN`, which is not an integer in the range
`0 ≤ i < max(1, playlist.length)`; `previous()` does the same. -/
theorem next_on_empty_playlist_is_nan :
    MusicPlayer.ValidIndex (MusicPlayer.loaded []) ∧
    (MusicPlayer.next (MusicPlayer.loaded [])).currentSongIndex = none ∧
    (MusicPlayer.previous (MusicPlayer.loaded [])).currentSongIndex = none ∧
    ¬ MusicPlayer.ValidIndex (MusicPlayer.next (MusicPlayer.loaded [])) := by
  refine ⟨⟨0, rfl, by decide, by decide⟩, by decide, by decide, ?_⟩
  rintro ⟨i, hi, _⟩
  have hn : (MusicPlayer.next (MusicPlayer.loaded [])).currentSongIndex = none := by decide
  rw [hn] at hi
  cases hi

/-- On a non-empty playlist the claim of C30 holds: `next()` and `previous()`
keep the index an integer within the playlist, and `next()` followed by
`previous()` restores it. -/
theorem index_stays_valid_on_nonempty_playlist (s : MusicPlayer.State) (i : Int)
    (_hne : s.playlist ≠ []) (hi : s.currentSongIndex = some i) (h0 : 0 ≤ i)
    (hlt : i < (s.playlist.length : Int)) :
    (∃ j, (MusicPlayer.next s).currentSongIndex = some j ∧ 0 ≤ j ∧
      j < ((MusicPlayer.next s).playlist.length : Int)) ∧
    (∃ j, (MusicPlayer.previous s).currentSongIndex = some j ∧ 0 ≤ j ∧
      j < ((MusicPlayer.previous s).playlist.length : Int)) ∧
    (MusicPlayer.previous (MusicPlayer.next s)).currentSongIndex = some i := by
  have hlen : (0 : Int) < (s.playlist.length : Int) := by omega
  have hn0 : (s.playlist.length : Int) ≠ 0 := by omega
  have hpl : ∀ t : MusicPlayer.State, (MusicPlayer.pauseCurrentSong t).playlist = t.playlist ∧
      (MusicPlayer.pauseCurrentSong t).currentSongIndex = t.currentSongIndex := by
    intro t
    unfold MusicPlayer.pauseCurrentSong
    split <;> exact ⟨rfl, rfl⟩
  have hnext : (MusicPlayer.next s).currentSongIndex =
      some (Int.tmod (i + 1) (s.playlist.length : Int)) ∧
      (MusicPlayer.next s).playlist = s.playlist := by
    simp [MusicPlayer.next, (hpl s).1, (hpl s).2, hi, MusicPlayer.jsAdd, MusicPlayer.jsMod, hn0]
  have hprev : ∀ (t : MusicPlayer.State) (k : Int), t.playlist = s.playlist →
      t.currentSongIndex = some k →
      (MusicPlayer.previous t).currentSongIndex =
        some (Int.tmod (k + -1 + (s.playlist.length : Int)) (s.playlist.length : Int)) ∧
      (MusicPlayer.previous t).playlist = s.playlist := by
    intro t k ht hk
    simp [MusicPlayer.previous, (hpl t).1, (hpl t).2, hk, ht, MusicPlayer.jsAdd,
      MusicPlayer.jsMod, hn0]
  have tmod_eq : ∀ a : Int, 0 ≤ a → Int.tmod a (s.playlist.length : Int) =
      a % (s.playlist.length : Int) := by
    intro a ha
    exact Int.tmod_eq_emod ha (by omega)
  refine ⟨⟨_, hnext.1, ?_, ?_⟩, ⟨_, (hprev s i rfl hi).1, ?_, ?_⟩, ?_⟩
  · rw [tmod_eq _ (by omega)]
    exact Int.emod_nonneg _ hn0
  · rw [hnext.2, tmod_eq _ (by omega)]
    exact Int.emod_lt_of_pos _ hlen
  · rw [tmod_eq _ (by omega)]
    exact Int.emod_nonneg _ hn0
  · rw [(hprev s i rfl hi).2, tmod_eq _ (by omega)]
    exact Int.emod_lt_of_pos _ hlen
  · rw [(hprev (MusicPlayer.next s) _ hnext.2 hnext.1).1]
    congr 1
    rw [tmod_eq (i + 1) (by omega)]
    have hj0 : 0 ≤ (i + 1) % (s.playlist.length : Int) := Int.emod_nonneg _ hn0
    rw [tmod_eq _ (by omega)]
    by_cases hlast : i + 1 = (s.playlist.length : Int)
    · rw [hlast, Int.emod_self]
      have : (0 : Int) + -1 + (s.playlist.length : Int) = i := by omega
      rw [this]
      exact Int.emod_eq_of_lt h0 hlt
    · have hsmall : i + 1 < (s.playlist.length : Int) := by omega
      rw [Int.emod_eq_of_lt (by omega) hsmall]
      have : i + 1 + -1 + (s.playlist.length : Int) = i + (s.playlist.length : Int) := by omega
      rw [this, Int.add_emod_self]
      exact Int.emod_eq_of_lt h0 hlt

/-- On a non-empty playlist any sequence of `next()` and `previous()` calls
leaves the playlist as it is and the index an integer within it. -/
theorem index_valid_after_calls (calls : List MusicPlayer.Call) (s : MusicPlayer.State)
    (i : Int) (hi : s.currentSongIndex = some i) (h0 : 0 ≤ i)
    (hlt : i < (s.playlist.length : Int)) :
    (MusicPlayer.callAll s calls).playlist = s.playlist ∧
    ∃ j, (MusicPlayer.callAll s calls).currentSongIndex = some j ∧ 0 ≤ j ∧
      j < (s.playlist.length : Int) := by
  induction calls generalizing s i with
  | nil => exact ⟨rfl, i, hi, h0, hlt⟩
  | cons c rest ih =>
    have hne : s.playlist ≠ [] := by
      intro hx
      rw [hx] at hlt
      simp at hlt
      omega
    have hstep := index_stays_valid_on_nonempty_playlist s i hne hi h0 hlt
    have hpl : (MusicPlayer.call s c).playlist = s.playlist := by
      cases c
      · simp only [MusicPlayer.call, MusicPlayer.next, MusicPlayer.pauseCurrentSong]
        split <;> rfl
      · simp only [MusicPlayer.call, MusicPlayer.previous, MusicPlayer.pauseCurrentSong]
        split <;> rfl
    have hidx : ∃ j, (MusicPlayer.call s c).currentSongIndex = some j ∧ 0 ≤ j ∧
        j < ((MusicPlayer.call s c).playlist.length : Int) := by
      cases c
      · exact hstep.1
      · exact hstep.2.1
    obtain ⟨j, hj, hj0, hjlt⟩ := hidx
    have := ih (MusicPlayer.call s c) j hj hj0 hjlt
    rw [hpl] at this
    exact this

end ChessAuth
